import Mathlib

/-!
The DtCraft `Select` demultiplexer (src/event/select.cpp).

A shallow embedding of `dtc::Select` and of the free function
`select_on_write`, followed by theorems about them.

Conventions of the embedding.

* A descriptor is a `Nat`: the contract of every operation excludes negative
  descriptors (`FD_SET` on a negative index is undefined), `_max_fd` is an
  `Int` because it takes the value `-1`.
* An `fd_set*` buffer is the list of its bytes.  `FD_SET`, `FD_CLR` and
  `FD_ISSET` address bit `fd % 8` of byte `fd / 8`, which is the layout of the
  glibc `fd_mask` words on a little-endian machine; `memset` and
  `_make_pollee` work on the same bytes.  A read outside the buffer yields `0`
  and a write outside it is dropped; in reachable states the accesses of the
  operations fall inside the buffers (see `Inv`).
* An `Event*` is modelled by the event value itself, whose `addr` field is the
  identity of the object; `nullptr` is `none`.
* The `select(2)` system call is an oracle: the list of the outcomes of the
  successive calls is an argument of the functions that issue it.
* The handler is external: a poll cycle records the sequence of events it
  invokes the handler with, and the handler is taken not to call back into the
  demultiplexer during the cycle.
* `size_t` and `int` arithmetic is exact: with `int` descriptors no quantity
  of the code comes near `2^63`.
-/

namespace dtc

/-! ## Declarations of headers that are not part of the sources -/

/-- Modelled from the spec: the direction tag `Event::type` of the external
event abstraction (`dtc/event/event.hpp`): READ, WRITE, or a value meaning
neither. -/
inductive EventType where
  | NONE
  | READ
  | WRITE
  deriving DecidableEq, Repr

/-- Modelled from the spec: the external event abstraction, exposing a
non-negative descriptor and a direction tag.  `addr` is the address of the
object, which is what the demultiplexer stores and hands to the handler. -/
structure Event where
  addr : Nat
  descriptor : Nat
  type : EventType
  deriving DecidableEq, Repr

/-- Modelled from the spec: `sizeof(fd_mask)`, the storage unit of a
descriptor set (one `long`), in bytes. -/
def sizeof_fd_mask : Nat := 8

/-- Modelled from the spec: `NFDBITS`, the number of bits of one `fd_mask`. -/
def NFDBITS : Nat := 8 * sizeof_fd_mask

/-- Modelled from the spec: `Select::num_masks` of `dtc/event/select.hpp`, the
number of `fd_mask` units needed to hold `num_fds` bits. -/
def num_masks (num_fds : Nat) : Nat := (num_fds + (NFDBITS - 1)) / NFDBITS

/-- The value of `EINTR`. -/
def EINTR : Nat := 4

/-- The value of `EBADF`. -/
def EBADF : Nat := 9

/-- The value of `FD_SETSIZE`, the number of bits of a `fd_set` object. -/
def FD_SETSIZE : Nat := 1024

/-! ## Descriptor-set primitives -/

/-- `FD_SET(fd, set)`: `set[fd / 8] |= 1 << (fd % 8)`. -/
def FD_SET (fd : Nat) (set : List Nat) : List Nat :=
  set.set (fd / 8) (set.getD (fd / 8) 0 ||| (1 <<< (fd % 8)))

/-- `FD_CLR(fd, set)`: `set[fd / 8] &= ~(1 << (fd % 8))` on a byte. -/
def FD_CLR (fd : Nat) (set : List Nat) : List Nat :=
  set.set (fd / 8) (set.getD (fd / 8) 0 &&& (255 ^^^ (1 <<< (fd % 8))))

/-- `FD_ISSET(fd, set)`: `(set[fd / 8] & (1 << (fd % 8))) != 0`. -/
def FD_ISSET (fd : Nat) (set : List Nat) : Bool :=
  (set.getD (fd / 8) 0 &&& (1 <<< (fd % 8))) != 0

/-- `FD_ZERO(&set)` on a `fd_set` object: `FD_SETSIZE / 8` zero bytes. -/
def FD_ZERO : List Nat := List.replicate (FD_SETSIZE / 8) 0

/-- `std::realloc(p, n)` on an array of `n` cells: the old contents up to the
smaller of the two sizes, the rest unspecified (here `junk`). -/
def realloc {α : Type} (p : List α) (n : Nat) (junk : α) : List α :=
  p.take n ++ List.replicate (n - p.length) junk

/-- `::memset(p + off, c, n)` on an array of cells: cells `off .. off + n - 1`
become `c`. -/
def memset {α : Type} (p : List α) (off : Nat) (c : α) (n : Nat) : List α :=
  p.take off ++ List.replicate (min n (p.length - off)) c ++ p.drop (off + n)

/-! ## The demultiplexer -/

/-- The data members of `dtc::Select` used by select.cpp.  `_R0` is `_R[0]`
(persistent READ bitmask), `_R1` is `_R[1]` (transient READ bitmask), likewise
`_W0`, `_W1`; `_M0`, `_M1` are the READ and WRITE active masks `_M[0]`,
`_M[1]`; `_fd2ev0`, `_fd2ev1` the READ and WRITE reference maps; `_cap0`,
`_cap1` the persistent and transient capacities in bytes; `_handler` tells
whether the handler of the reactor is set. -/
structure Select where
  _R0 : List Nat
  _R1 : List Nat
  _W0 : List Nat
  _W1 : List Nat
  _M0 : List Nat
  _M1 : List Nat
  _fd2ev0 : List (Option Event)
  _fd2ev1 : List (Option Event)
  _cap0 : Nat
  _cap1 : Nat
  _max_fd : Int
  _handler : Bool
  deriving DecidableEq, Repr

/-- The newly constructed demultiplexer: no storage, `_max_fd = -1`. -/
def Select.empty (handler : Bool) : Select :=
  { _R0 := [], _R1 := [], _W0 := [], _W1 := [], _M0 := [], _M1 := [],
    _fd2ev0 := [], _fd2ev1 := [], _cap0 := 0, _cap1 := 0, _max_fd := -1,
    _handler := handler }

/-- `Select::_make_pollee(dst, in, mask, size)`: the pointer walk
`*dst++ = *in++ & *mask++`, `size` times. -/
def _make_pollee : List Nat → List Nat → List Nat → Nat → List Nat
  | _ :: dst, i :: inp, m :: mask, size + 1 =>
    (i &&& m) :: _make_pollee dst inp mask size
  | dst, _, _, _ => dst

/-- The loop `while(new_cap < tgt_cap) new_cap *= 2;` of `_recap`, with a bound
on the number of iterations. -/
def grow_cap : Nat → Nat → Nat → Nat
  | 0, new_cap, _ => new_cap
  | fuel + 1, new_cap, tgt_cap =>
    if new_cap < tgt_cap then grow_cap fuel (new_cap * 2) tgt_cap else new_cap

/-- `Select::_recap(fd)`. -/
def _recap (s : Select) (fd : Nat) : Select :=
  if s._max_fd ≥ (fd : Int) then s
  else
    let s1 := { s with _max_fd := (fd : Int) }
    let tgt_cap := num_masks (fd + 1) * sizeof_fd_mask
    if s1._cap0 ≥ tgt_cap then s1
    else
      let new_cap := grow_cap tgt_cap (if s1._cap0 = 0 then sizeof_fd_mask else s1._cap0) tgt_cap
      let c := s1._cap0
      { s1 with
        _R0 := memset (realloc s1._R0 new_cap 0) c 0 (new_cap - c)
        _W0 := memset (realloc s1._W0 new_cap 0) c 0 (new_cap - c)
        _M0 := memset (realloc s1._M0 new_cap 0) c 1 (new_cap - c)
        _M1 := memset (realloc s1._M1 new_cap 0) c 1 (new_cap - c)
        _fd2ev0 := memset (realloc s1._fd2ev0 (new_cap * 8) none) (c * 8) none ((new_cap - c) * 8)
        _fd2ev1 := memset (realloc s1._fd2ev1 (new_cap * 8) none) (c * 8) none ((new_cap - c) * 8)
        _cap0 := new_cap }

/-- `Select::_insert(event)`. -/
def _insert (s : Select) (event : Event) : Select :=
  let s := _recap s event.descriptor
  match event.type with
  | EventType.READ =>
    { s with
      _R0 := FD_SET event.descriptor s._R0
      _M0 := FD_SET event.descriptor s._M0
      _fd2ev0 := s._fd2ev0.set event.descriptor (some event) }
  | EventType.WRITE =>
    { s with
      _W0 := FD_SET event.descriptor s._W0
      _M1 := FD_SET event.descriptor s._M1
      _fd2ev1 := s._fd2ev1.set event.descriptor (some event) }
  | EventType.NONE => s

/-- The loop `while(_max_fd >= 0 && !FD_ISSET(_max_fd, _R[0]) &&
!FD_ISSET(_max_fd, _W[0])) --_max_fd;` of `_remove`; the argument is
`_max_fd + 1` and the result is the final `_max_fd`. -/
def shrink_max_fd (R W : List Nat) : Nat → Int
  | 0 => -1
  | m + 1 =>
    if !FD_ISSET m R && !FD_ISSET m W then shrink_max_fd R W m else (m : Int)

/-- `Select::_remove(event)`. -/
def _remove (s : Select) (event : Event) : Select :=
  let s := _recap s event.descriptor
  let s :=
    match event.type with
    | EventType.READ =>
      { s with
        _R0 := FD_CLR event.descriptor s._R0
        _M0 := FD_CLR event.descriptor s._M0
        _fd2ev0 := s._fd2ev0.set event.descriptor none }
    | EventType.WRITE =>
      { s with
        _W0 := FD_CLR event.descriptor s._W0
        _M1 := FD_CLR event.descriptor s._M1
        _fd2ev1 := s._fd2ev1.set event.descriptor none }
    | EventType.NONE => s
  { s with _max_fd := shrink_max_fd s._R0 s._W0 (s._max_fd + 1).toNat }

/-- `Select::_freeze(event)`. -/
def _freeze (s : Select) (event : Event) : Select :=
  let s := _recap s event.descriptor
  match event.type with
  | EventType.READ => { s with _M0 := FD_CLR event.descriptor s._M0 }
  | EventType.WRITE => { s with _M1 := FD_CLR event.descriptor s._M1 }
  | EventType.NONE => s

/-- `Select::_thaw(event)`. -/
def _thaw (s : Select) (event : Event) : Select :=
  let s := _recap s event.descriptor
  match event.type with
  | EventType.READ => { s with _M0 := FD_SET event.descriptor s._M0 }
  | EventType.WRITE => { s with _M1 := FD_SET event.descriptor s._M1 }
  | EventType.NONE => s

/-! ## The system call and the poll cycle -/

/-- One return of `::select`: either `-1` with `errno` set, the submitted sets
being left as they were, or a non-negative count, the kernel having written
the ready sets `rd`, `wr`, `ex` over the sets it was handed (a set passed as
`nullptr` is ignored). -/
inductive SelectOutcome where
  | fail (errno : Nat)
  | ok (rd wr ex : List Nat)
  deriving DecidableEq, Repr

/-- The kernel writing a result over the leading bytes of a submitted set; the
set keeps its size. -/
def write_back : List Nat → List Nat → List Nat
  | r :: res, _ :: buf => r :: write_back res buf
  | _, buf => buf

/-- Lines 194-206 of `_select`: the transient capacity is raised to the
persistent one and both working bitmasks are recomputed. -/
def make_snapshot (s : Select) : Select :=
  let tgt_cap := if s._max_fd = -1 then 0 else (s._max_fd / 8 + 1).toNat
  let s :=
    if s._cap1 < s._cap0 then
      { s with
        _cap1 := s._cap0
        _R1 := realloc s._R1 s._cap0 0
        _W1 := realloc s._W1 s._cap0 0 }
    else s
  { s with
    _R1 := _make_pollee s._R1 s._R0 s._M0 tgt_cap
    _W1 := _make_pollee s._W1 s._W0 s._M1 tgt_cap }

/-- The label `issue_select` of `_select` and the branch on `ret == -1`: the
call is repeated while it fails with `EINTR`.  The result is `none` when the
oracle has no outcome left, otherwise the state after the last call, the
error to throw if any, and the number of calls issued. -/
def issue_select (s : Select) : List SelectOutcome → Option (Select × Option Nat × Nat)
  | [] => none
  | SelectOutcome.fail errno :: rest =>
    if errno = EINTR then
      (issue_select s rest).map (fun r => (r.1, r.2.1, r.2.2 + 1))
    else some (s, some errno, 1)
  | SelectOutcome.ok rd wr _ :: _ =>
    some ({ s with _R1 := write_back rd s._R1, _W1 := write_back wr s._W1 }, none, 1)

/-- The dispatch loop of `_select`, `for(int fd = _pmax_fd; fd >= 0; --fd)`:
the first argument is `fd + 1`, `trace` is the sequence of events the handler
has been invoked with so far. -/
def dispatch_loop (s : Select) : Nat → List Event → List Event
  | 0, trace => trace
  | fd + 1, trace =>
    let trace :=
      match FD_ISSET fd s._R1, s._fd2ev0.getD fd none with
      | true, some ev => trace ++ [ev]
      | _, _ => trace
    let trace :=
      match FD_ISSET fd s._W1, s._fd2ev1.getD fd none with
      | true, some ev => trace ++ [ev]
      | _, _ => trace
    dispatch_loop s fd trace

/-- What one call of `_select` did: the final state, the sequence of handler
invocations, the code of the `std::system_error` thrown (if any) and the
number of `::select` calls issued. -/
structure PollResult where
  state : Select
  trace : List Event
  error : Option Nat
  calls : Nat
  deriving DecidableEq, Repr

/-- `Select::_select(tv)` against the oracle `sys`; `none` when the oracle runs
out before a call returns with something else than `EINTR`. -/
def _select (s : Select) (sys : List SelectOutcome) : Option PollResult :=
  if s._max_fd = -1 then some { state := s, trace := [], error := none, calls := 0 }
  else
    let _pmax_fd := s._max_fd
    match issue_select (make_snapshot s) sys with
    | none => none
    | some (s1, some errno, n) => some { state := s1, trace := [], error := some errno, calls := n }
    | some (s1, none, n) =>
      if s1._handler then
        some { state := s1, trace := dispatch_loop s1 (_pmax_fd + 1).toNat [], error := none, calls := n }
      else some { state := s1, trace := [], error := none, calls := n }

/-- `select_on_write(fd, timeout, errc)` against the oracle `sys`: the returned
flag and the final value of `errc` (`0` when cleared); `none` when the oracle
runs out. -/
def select_on_write (fd : Nat) (timeout : Int) : List SelectOutcome → Option (Bool × Nat)
  | [] => none
  | SelectOutcome.fail errno :: rest =>
    if errno = EINTR then select_on_write fd timeout rest
    else some (FD_ISSET fd (FD_SET fd FD_ZERO), errno)
  | SelectOutcome.ok _ wr _ :: _ =>
    some (FD_ISSET fd (write_back wr (FD_SET fd FD_ZERO)), 0)

/-! ## Operations and reachable states -/

/-- A call on the demultiplexer. -/
inductive Op where
  | insert (e : Event)
  | remove (e : Event)
  | freeze (e : Event)
  | thaw (e : Event)
  deriving DecidableEq, Repr

/-- The state after one call. -/
def Op.apply (s : Select) : Op → Select
  | Op.insert e => _insert s e
  | Op.remove e => _remove s e
  | Op.freeze e => _freeze s e
  | Op.thaw e => _thaw s e

/-- The state after a sequence of calls, the first call first. -/
def run (s : Select) (ops : List Op) : Select := ops.foldl Op.apply s

/-- States reachable from the empty demultiplexer by registration calls and
poll cycles (with any behaviour of the system call). -/
inductive Reachable : Select → Prop where
  | empty (handler : Bool) : Reachable (Select.empty handler)
  | op (s : Select) (o : Op) : Reachable s → Reachable (o.apply s)
  | poll (s : Select) (sys : List SelectOutcome) (r : PollResult) :
      Reachable s → _select s sys = some r → Reachable r.state

/-! ## Observations on a state -/

/-- The persistent bit of the pair `(fd, dir)`: `FD_ISSET(fd, _R[0])` for READ,
`FD_ISSET(fd, _W[0])` for WRITE. -/
def persistent (s : Select) (dir : EventType) (fd : Nat) : Bool :=
  match dir with
  | EventType.READ => FD_ISSET fd s._R0
  | EventType.WRITE => FD_ISSET fd s._W0
  | EventType.NONE => false

/-- The active-mask bit of the pair `(fd, dir)`: `FD_ISSET(fd, _M[0])` for READ,
`FD_ISSET(fd, _M[1])` for WRITE. -/
def active (s : Select) (dir : EventType) (fd : Nat) : Bool :=
  match dir with
  | EventType.READ => FD_ISSET fd s._M0
  | EventType.WRITE => FD_ISSET fd s._M1
  | EventType.NONE => false

/-- The bit of the pair `(fd, dir)` in the transient working bitmask:
`FD_ISSET(fd, _R[1])` for READ, `FD_ISSET(fd, _W[1])` for WRITE. -/
def working (s : Select) (dir : EventType) (fd : Nat) : Bool :=
  match dir with
  | EventType.READ => FD_ISSET fd s._R1
  | EventType.WRITE => FD_ISSET fd s._W1
  | EventType.NONE => false

/-- The reference-map slot of the pair `(fd, dir)`: `_fd2ev[0][fd]` for READ,
`_fd2ev[1][fd]` for WRITE. -/
def slot (s : Select) (dir : EventType) (fd : Nat) : Option Event :=
  match dir with
  | EventType.READ => s._fd2ev0.getD fd none
  | EventType.WRITE => s._fd2ev1.getD fd none
  | EventType.NONE => none

/-- The representation invariant of the demultiplexer. -/
structure Inv (s : Select) : Prop where
  lenR : s._R0.length = s._cap0
  lenW : s._W0.length = s._cap0
  lenM0 : s._M0.length = s._cap0
  lenM1 : s._M1.length = s._cap0
  lenE0 : s._fd2ev0.length = s._cap0 * 8
  lenE1 : s._fd2ev1.length = s._cap0 * 8
  lenR1 : s._R1.length = s._cap1
  lenW1 : s._W1.length = s._cap1
  cap1_le : s._cap1 ≤ s._cap0
  max_ge : -1 ≤ s._max_fd
  max_lt : s._max_fd < ((s._cap0 * 8 : Nat) : Int)
  bitsR : ∀ fd, FD_ISSET fd s._R0 = true → (fd : Int) ≤ s._max_fd
  bitsW : ∀ fd, FD_ISSET fd s._W0 = true → (fd : Int) ≤ s._max_fd
  slotR : ∀ fd, (s._fd2ev0.getD fd none).isSome = FD_ISSET fd s._R0
  slotW : ∀ fd, (s._fd2ev1.getD fd none).isSome = FD_ISSET fd s._W0
  evR : ∀ fd ev, s._fd2ev0.getD fd none = some ev →
    ev.descriptor = fd ∧ ev.type = EventType.READ
  evW : ∀ fd ev, s._fd2ev1.getD fd none = some ev →
    ev.descriptor = fd ∧ ev.type = EventType.WRITE
  byteM0 : ∀ b ∈ s._M0, b < 256
  byteM1 : ∀ b ∈ s._M1, b < 256

/-- The state `_recap` produces when it appends `k` bytes of storage and leaves
`_max_fd` at `m`. -/
def grown (s : Select) (k : Nat) (m : Int) : Select :=
  { s with
    _max_fd := m
    _R0 := s._R0 ++ List.replicate k 0
    _W0 := s._W0 ++ List.replicate k 0
    _M0 := s._M0 ++ List.replicate k 1
    _M1 := s._M1 ++ List.replicate k 1
    _fd2ev0 := s._fd2ev0 ++ List.replicate (k * 8) none
    _fd2ev1 := s._fd2ev1 ++ List.replicate (k * 8) none
    _cap0 := s._cap0 + k }

/-- Some direction of the descriptor `fd` is registered: its persistent READ or
WRITE bit is set. -/
def registered (s : Select) (fd : Nat) : Bool :=
  persistent s EventType.READ fd || persistent s EventType.WRITE fd

/-- The value of `_max_fd` is the largest descriptor whose persistent READ or
WRITE bit is set, or `-1` if no such bit is set. -/
def max_fd_is_largest (s : Select) : Prop :=
  (∀ fd, registered s fd = true → (fd : Int) ≤ s._max_fd) ∧
    (s._max_fd = -1 ∨ (0 ≤ s._max_fd ∧ registered s s._max_fd.toNat = true))

/-- The state `s` with its two active masks replaced. -/
def with_masks (s : Select) (m0 m1 : List Nat) : Select :=
  { s with _M0 := m0, _M1 := m1 }

/-- The handler invocations the poll cycle makes for the descriptor `fd`, in
the words of the specification: the READ event of `fd` if the READ working bit
of `fd` is ready and a READ reference exists, followed by the WRITE event of
`fd` if its WRITE working bit is ready and a WRITE reference exists. -/
def dispatch_at (s : Select) (fd : Nat) : List Event :=
  (if working s EventType.READ fd then (slot s EventType.READ fd).toList else []) ++
    (if working s EventType.WRITE fd then (slot s EventType.WRITE fd).toList else [])

/-- The sequence of handler invocations of one poll cycle, in the words of the
specification: `dispatch_at` for each descriptor from `_max_fd` down to `0`. -/
def dispatch_order (s : Select) : List Event :=
  ((List.range (s._max_fd + 1).toNat).reverse).flatMap (dispatch_at s)

/-- The event a call is made with. -/
def Op.event : Op → Event
  | Op.insert e => e
  | Op.remove e => e
  | Op.freeze e => e
  | Op.thaw e => e

/-- The pair `(d, dir)` is registered and frozen: `freeze` was called on it
while it was registered, and since then there has been no `insert`, `remove` or
`thaw` of the pair (calls on other pairs, further `freeze` calls and poll
cycles may have taken place). -/
inductive Frozen (d : Nat) (dir : EventType) : Select → Prop where
  | freeze (s : Select) (e : Event) : Reachable s → persistent s dir d = true →
      e.descriptor = d → e.type = dir → Frozen d dir (_freeze s e)
  | other (s : Select) (o : Op) : Frozen d dir s →
      ¬ (o.event.descriptor = d ∧ o.event.type = dir) → Frozen d dir (o.apply s)
  | again (s : Select) (e : Event) : Frozen d dir s → Frozen d dir (_freeze s e)
  | poll (s : Select) (sys : List SelectOutcome) (r : PollResult) : Frozen d dir s →
      _select s sys = some r → Frozen d dir r.state

/-- The contract of `::select` on the sets it was handed (those of the state
`s`): a successful call reports as ready only descriptors that were set in the
submitted set. -/
def reports_within (s : Select) : SelectOutcome → Prop
  | SelectOutcome.fail _ => True
  | SelectOutcome.ok rd wr _ =>
    ∀ fd, (FD_ISSET fd (write_back rd s._R1) = true → FD_ISSET fd s._R1 = true) ∧
      (FD_ISSET fd (write_back wr s._W1) = true → FD_ISSET fd s._W1 = true)

/-- The accesses at the descriptor `fd` stay inside the allocated storage: the
byte of `fd` exists in both persistent bitmasks and both active masks, and the
slot of `fd` exists in both reference maps. -/
def in_storage (s : Select) (fd : Nat) : Prop :=
  fd / 8 < s._R0.length ∧ fd / 8 < s._W0.length ∧ fd / 8 < s._M0.length ∧
    fd / 8 < s._M1.length ∧ fd < s._fd2ev0.length ∧ fd < s._fd2ev1.length

/-- The handle-count bound that `_select` passes to `::select`:
`_pmax_fd + 1`. -/
def select_nfds (s : Select) : Int := s._max_fd + 1

/-! ## Lemmas -/

/-! ## Bits of a byte -/

theorem and_shiftLeft_ne_zero (b k : Nat) : ((b &&& (1 <<< k)) != 0) = b.testBit k := by
  rw [Nat.one_shiftLeft]
  by_cases h : b.testBit k = true
  · rw [h]
    have : (b &&& 2 ^ k).testBit k = true := by simp [h]
    have h2 : b &&& 2 ^ k ≠ 0 := by
      intro h0
      rw [h0] at this
      simp at this
    simpa using h2
  · simp only [Bool.not_eq_true] at h
    rw [h]
    have : b &&& 2 ^ k = 0 := by
      apply Nat.eq_of_testBit_eq
      intro i
      simp only [Nat.testBit_and, Nat.zero_testBit, Nat.testBit_two_pow]
      by_cases hik : k = i
      · subst hik; simp [h]
      · simp [hik]
    simp [this]

theorem testBit_set_bit (b k j : Nat) :
    (b ||| (1 <<< k)).testBit j = (b.testBit j || decide (k = j)) := by
  rw [Nat.one_shiftLeft, Nat.testBit_or, Nat.testBit_two_pow]

theorem testBit_255 (j : Nat) : (255 : Nat).testBit j = decide (j < 8) := by
  have : (255 : Nat) = 2 ^ 8 - 1 := by norm_num
  rw [this, Nat.testBit_two_pow_sub_one]

theorem testBit_clr_bit (b k j : Nat) (hk : k < 8) :
    (b &&& (255 ^^^ (1 <<< k))).testBit j = (b.testBit j && decide (j < 8) && !decide (k = j)) := by
  rw [Nat.one_shiftLeft, Nat.testBit_and, Nat.testBit_xor, Nat.testBit_two_pow, testBit_255]
  by_cases h1 : j < 8 <;> by_cases h2 : k = j <;> simp [h1, h2]
  omega

theorem testBit_of_lt_256 (b j : Nat) (hb : b < 256) (hj : 8 ≤ j) : b.testBit j = false := by
  apply Nat.testBit_lt_two_pow
  calc b < 2 ^ 8 := by simpa using hb
    _ ≤ 2 ^ j := Nat.pow_le_pow_right (by norm_num) hj

theorem set_bit_lt_256 (b k : Nat) (hb : b < 256) (hk : k < 8) : b ||| (1 <<< k) < 256 := by
  have h2 : 1 <<< k < 2 ^ 8 := by
    rw [Nat.one_shiftLeft]
    exact Nat.pow_lt_pow_right (by norm_num) hk
  have h1 : b < 2 ^ 8 := by simpa using hb
  simpa using Nat.or_lt_two_pow h1 h2

theorem clr_bit_lt_256 (b k : Nat) (hk : k < 8) : b &&& (255 ^^^ (1 <<< k)) < 256 := by
  have h2 : 1 <<< k < 2 ^ 8 := by
    rw [Nat.one_shiftLeft]
    exact Nat.pow_lt_pow_right (by norm_num) hk
  have h3 : 255 ^^^ (1 <<< k) < 2 ^ 8 := Nat.xor_lt_two_pow (by norm_num) h2
  exact lt_of_le_of_lt Nat.and_le_right (by simpa using h3)

/-! ## Bits of a descriptor set -/

theorem FD_ISSET_eq (fd : Nat) (s : List Nat) :
    FD_ISSET fd s = (s.getD (fd / 8) 0).testBit (fd % 8) := by
  unfold FD_ISSET
  exact and_shiftLeft_ne_zero _ _

@[simp] theorem length_FD_SET (fd : Nat) (s : List Nat) : (FD_SET fd s).length = s.length := by
  simp [FD_SET]

@[simp] theorem length_FD_CLR (fd : Nat) (s : List Nat) : (FD_CLR fd s).length = s.length := by
  simp [FD_CLR]

theorem FD_ISSET_out (fd : Nat) (s : List Nat) (h : s.length ≤ fd / 8) : FD_ISSET fd s = false := by
  rw [FD_ISSET_eq, List.getD_eq_default _ _ h]
  simp

theorem FD_ISSET_lt (fd : Nat) (s : List Nat) (h : FD_ISSET fd s = true) : fd / 8 < s.length := by
  by_contra hc
  rw [FD_ISSET_out fd s (by omega)] at h
  exact Bool.noConfusion h

theorem FD_ISSET_FD_SET (a b : Nat) (s : List Nat) :
    FD_ISSET a (FD_SET b s) = (FD_ISSET a s || (decide (a = b) && decide (b / 8 < s.length))) := by
  simp only [FD_ISSET_eq, FD_SET, List.getD_eq_getElem?_getD, List.getElem?_set]
  by_cases h1 : b / 8 = a / 8
  · by_cases h2 : b / 8 < s.length
    · have h3 : a / 8 < s.length := by omega
      have h4 : (a = b) ↔ (b % 8 = a % 8) := by omega
      simp only [h1, if_true, h3, Option.getD_some, testBit_set_bit, List.getElem?_eq_getElem,
        h4, Bool.and_true]
      rw [← h1] at h3
      simp [h1, h3]
    · have h3 : ¬ a / 8 < s.length := by omega
      have h5 : s[a / 8]? = none := List.getElem?_eq_none (by omega)
      simp [h1, h3, h5]
  · have h4 : ¬ a = b := by intro h; exact h1 (by rw [h])
    simp [h1, h4]

theorem FD_ISSET_FD_CLR (a b : Nat) (s : List Nat) :
    FD_ISSET a (FD_CLR b s) = (FD_ISSET a s && !decide (a = b)) := by
  simp only [FD_ISSET_eq, FD_CLR, List.getD_eq_getElem?_getD, List.getElem?_set]
  by_cases h1 : b / 8 = a / 8
  · by_cases h2 : b / 8 < s.length
    · have h3 : a / 8 < s.length := by omega
      have h4 : (a = b) ↔ (b % 8 = a % 8) := by omega
      have h5 : a % 8 < 8 := Nat.mod_lt _ (by norm_num)
      have h6 : b % 8 < 8 := Nat.mod_lt _ (by norm_num)
      simp only [h1, if_true, h3, Option.getD_some, testBit_clr_bit _ _ _ h6,
        List.getElem?_eq_getElem, h4, h5, decide_True, Bool.and_true]
    · have h3 : ¬ a / 8 < s.length := by omega
      have h5 : s[a / 8]? = none := List.getElem?_eq_none (by omega)
      simp [h1, h3, h5]
  · have h4 : ¬ a = b := by intro h; exact h1 (by rw [h])
    simp [h1, h4]


/-! ## Capacity management -/

theorem realloc_memset {α : Type} (p : List α) (c n : Nat) (j v : α) (hp : p.length = c)
    (hn : c ≤ n) : memset (realloc p n j) c v (n - c) = p ++ List.replicate (n - c) v := by
  unfold memset realloc
  have h1 : List.take n p = p := List.take_of_length_le (by omega)
  rw [h1, hp]
  have h2 : List.take c (p ++ List.replicate (n - c) j) = p := by
    rw [List.take_append_of_le_length (by omega)]
    exact List.take_of_length_le (by omega)
  have h3 : List.drop (c + (n - c)) (p ++ List.replicate (n - c) j) = [] := by
    apply List.drop_of_length_le
    simp [hp]
  rw [h2, h3]
  simp [hp]

theorem grow_cap_ge (fuel c t : Nat) (hc : 0 < c) (hf : t ≤ c * 2 ^ fuel) :
    t ≤ grow_cap fuel c t ∧ c ≤ grow_cap fuel c t := by
  induction fuel generalizing c with
  | zero => simpa [grow_cap] using hf
  | succ f ih =>
    unfold grow_cap
    split
    · have := ih (c * 2) (by omega) (by rw [pow_succ] at hf; nlinarith)
      omega
    · omega

theorem recap_eq_grown (s : Select) (h : Inv s) (fd : Nat) :
    ∃ k, _recap s fd = grown s k (max s._max_fd fd) ∧ fd < (s._cap0 + k) * 8 ∧
      ((fd : Int) ≤ s._max_fd → k = 0) := by
  by_cases h1 : s._max_fd ≥ (fd : Int)
  · refine ⟨0, ?_, ?_, fun _ => rfl⟩
    · rw [_recap, if_pos h1]
      cases s
      simp only [grown, List.replicate_zero, List.append_nil, Nat.zero_mul, Nat.add_zero]
      simp only [ge_iff_le] at h1
      simp [max_eq_left h1]
    · have := h.max_lt
      simp only [ge_iff_le] at h1
      omega
  · rw [_recap, if_neg h1]
    simp only [ge_iff_le, not_le] at h1
    by_cases h2 : s._cap0 ≥ num_masks (fd + 1) * sizeof_fd_mask
    · refine ⟨0, ?_, ?_, fun h3 => by omega⟩
      · simp only [h2, if_true]
        cases s
        simp only [grown, List.replicate_zero, List.append_nil, Nat.zero_mul, Nat.add_zero]
        simp [max_eq_right (le_of_lt h1)]
      · simp only [num_masks, NFDBITS, sizeof_fd_mask, ge_iff_le] at h2
        omega
    · simp only [h2, if_false]
      simp only [ge_iff_le, not_le] at h2
      have hg := grow_cap_ge (num_masks (fd + 1) * sizeof_fd_mask)
        (if s._cap0 = 0 then sizeof_fd_mask else s._cap0) (num_masks (fd + 1) * sizeof_fd_mask)
        (by split <;> first | decide | omega)
        (by
          have h3 := Nat.lt_two_pow (num_masks (fd + 1) * sizeof_fd_mask)
          have h4 : 1 ≤ (if s._cap0 = 0 then sizeof_fd_mask else s._cap0) := by
            split <;> first | decide | omega
          nlinarith)
      generalize grow_cap (num_masks (fd + 1) * sizeof_fd_mask)
        (if s._cap0 = 0 then sizeof_fd_mask else s._cap0) (num_masks (fd + 1) * sizeof_fd_mask)
        = new_cap at hg ⊢
      have h5 : s._cap0 ≤ new_cap := by omega
      refine ⟨new_cap - s._cap0, ?_, ?_, fun h3 => by omega⟩
      · simp only [grown]
        rw [realloc_memset _ _ _ _ _ h.lenR h5, realloc_memset _ _ _ _ _ h.lenW h5,
          realloc_memset _ _ _ _ _ h.lenM0 h5, realloc_memset _ _ _ _ _ h.lenM1 h5]
        have h6 : (new_cap - s._cap0) * 8 = new_cap * 8 - s._cap0 * 8 := by omega
        rw [h6, realloc_memset _ _ _ _ _ h.lenE0 (by omega),
          realloc_memset _ _ _ _ _ h.lenE1 (by omega)]
        simp [max_eq_right (le_of_lt h1)]
        omega
      · simp only [num_masks, NFDBITS, sizeof_fd_mask] at hg
        omega

theorem FD_ISSET_append_zero (fd k : Nat) (l : List Nat) :
    FD_ISSET fd (l ++ List.replicate k 0) = FD_ISSET fd l := by
  simp only [FD_ISSET_eq, List.getD_eq_getElem?_getD]
  by_cases h : fd / 8 < l.length
  · rw [List.getElem?_append_left h]
  · rw [List.getElem?_append_right (by omega), List.getElem?_eq_none (l := l) (by omega),
      List.getElem?_replicate]
    split <;> simp

theorem FD_ISSET_append_of_lt (fd : Nat) (l l' : List Nat) (h : fd / 8 < l.length) :
    FD_ISSET fd (l ++ l') = FD_ISSET fd l := by
  simp only [FD_ISSET_eq, List.getD_eq_getElem?_getD]
  rw [List.getElem?_append_left h]

theorem getD_append_none {α : Type} (n k : Nat) (l : List (Option α)) :
    (l ++ List.replicate k none).getD n none = l.getD n none := by
  simp only [List.getD_eq_getElem?_getD]
  by_cases h : n < l.length
  · rw [List.getElem?_append_left h]
  · rw [List.getElem?_append_right (by omega), List.getElem?_eq_none (l := l) (by omega),
      List.getElem?_replicate]
    split <;> simp

theorem getD_set_none {α : Type} (n m : Nat) (v : Option α) (l : List (Option α)) :
    (l.set m v).getD n none = if m = n ∧ m < l.length then v else l.getD n none := by
  simp only [List.getD_eq_getElem?_getD, List.getElem?_set]
  by_cases h1 : m = n
  · subst h1
    by_cases h2 : m < l.length
    · simp [h2]
    · simp [h2, List.getElem?_eq_none (l := l) (n := m) (by omega)]
  · simp [h1]

theorem Inv_empty (handler : Bool) : Inv (Select.empty handler) := by
  constructor <;> simp [Select.empty, FD_ISSET_eq]

theorem Inv_grown (s : Select) (k : Nat) (m : Int) (h : Inv s) (h1 : s._max_fd ≤ m)
    (h2 : m < (((s._cap0 + k) * 8 : Nat) : Int)) : Inv (grown s k m) := by
  have := h.max_ge
  constructor
  · simp [grown, h.lenR]
  · simp [grown, h.lenW]
  · simp [grown, h.lenM0]
  · simp [grown, h.lenM1]
  · simp [grown, h.lenE0]; omega
  · simp [grown, h.lenE1]; omega
  · simp [grown, h.lenR1]
  · simp [grown, h.lenW1]
  · have := h.cap1_le
    simp only [grown]; omega
  · simp only [grown]; omega
  · simpa [grown] using h2
  · intro fd hfd
    simp only [grown, FD_ISSET_append_zero] at hfd ⊢
    exact le_trans (h.bitsR fd hfd) h1
  · intro fd hfd
    simp only [grown, FD_ISSET_append_zero] at hfd ⊢
    exact le_trans (h.bitsW fd hfd) h1
  · intro fd
    simp only [grown, FD_ISSET_append_zero, getD_append_none]
    exact h.slotR fd
  · intro fd
    simp only [grown, FD_ISSET_append_zero, getD_append_none]
    exact h.slotW fd
  · intro fd ev hev
    simp only [grown, getD_append_none] at hev
    exact h.evR fd ev hev
  · intro fd ev hev
    simp only [grown, getD_append_none] at hev
    exact h.evW fd ev hev
  · intro b hb
    simp only [grown, List.mem_append, List.mem_replicate] at hb
    rcases hb with hb | hb
    · exact h.byteM0 b hb
    · omega
  · intro b hb
    simp only [grown, List.mem_append, List.mem_replicate] at hb
    rcases hb with hb | hb
    · exact h.byteM1 b hb
    · omega

theorem recap_of_le (s : Select) (fd : Nat) (h : (fd : Int) ≤ s._max_fd) : _recap s fd = s := by
  rw [_recap, if_pos h]

theorem le_max_fd_recap (s : Select) (fd : Nat) : (fd : Int) ≤ (_recap s fd)._max_fd := by
  unfold _recap
  by_cases h1 : s._max_fd ≥ (fd : Int)
  · rw [if_pos h1]; exact h1
  · rw [if_neg h1]
    dsimp only
    split <;> simp

theorem recap_idem (s : Select) (fd : Nat) : _recap (_recap s fd) fd = _recap s fd :=
  recap_of_le _ _ (le_max_fd_recap s fd)

theorem Inv_recap (s : Select) (fd : Nat) (h : Inv s) : Inv (_recap s fd) := by
  obtain ⟨k, hk, hlt, -⟩ := recap_eq_grown s h fd
  rw [hk]
  apply Inv_grown s k _ h (le_max_left _ _)
  have := h.max_lt
  rcases max_cases s._max_fd (fd : Int) with ⟨h1, -⟩ | ⟨h1, -⟩ <;> rw [h1] <;> push_cast <;> omega

/-! ## The invariant is preserved by the registration calls -/

theorem Inv_insert (s : Select) (e : Event) (h : Inv s) : Inv (_insert s e) := by
  unfold _insert
  have hg := Inv_recap s e.descriptor h
  have hle := le_max_fd_recap s e.descriptor
  generalize _recap s e.descriptor = g at hg hle
  have hlt := hg.max_lt
  cases e with
  | mk addr fd type =>
  dsimp only at hle ⊢
  cases type with
  | NONE => exact hg
  | READ =>
    dsimp only
    have hin : fd / 8 < g._R0.length := by rw [hg.lenR]; omega
    constructor <;> dsimp only
    · simp [hg.lenR]
    · exact hg.lenW
    · simp [hg.lenM0]
    · exact hg.lenM1
    · simp [hg.lenE0]
    · exact hg.lenE1
    · exact hg.lenR1
    · exact hg.lenW1
    · exact hg.cap1_le
    · exact hg.max_ge
    · exact hg.max_lt
    · intro a ha
      rw [FD_ISSET_FD_SET] at ha
      simp only [Bool.or_eq_true, Bool.and_eq_true, decide_eq_true_eq] at ha
      rcases ha with ha | ⟨ha, -⟩
      · exact hg.bitsR a ha
      · rw [ha]; exact hle
    · exact hg.bitsW
    · intro a
      rw [FD_ISSET_FD_SET, getD_set_none]
      by_cases hfa : fd = a
      · subst hfa
        have : fd < g._fd2ev0.length := by rw [hg.lenE0]; omega
        simp [this, hin]
      · have hfa2 : ¬ a = fd := fun hh => hfa hh.symm
        simp only [hfa, hfa2, false_and, if_false, decide_False, Bool.false_and, Bool.or_false]
        exact hg.slotR a
    · exact hg.slotW
    · intro a ev hev
      rw [getD_set_none] at hev
      split at hev
      · rename_i hc
        cases hev
        exact ⟨hc.1, rfl⟩
      · exact hg.evR a ev hev
    · exact hg.evW
    · intro b hb
      rcases List.mem_or_eq_of_mem_set hb with hb | hb
      · exact hg.byteM0 b hb
      · rw [hb]
        apply set_bit_lt_256 _ _ _ (Nat.mod_lt _ (by norm_num))
        have hin2 : fd / 8 < g._M0.length := by rw [hg.lenM0]; omega
        rw [List.getD_eq_getElem _ _ hin2]
        exact hg.byteM0 _ (List.getElem_mem _)
    · exact hg.byteM1
  | WRITE =>
    dsimp only
    have hin : fd / 8 < g._W0.length := by rw [hg.lenW]; omega
    constructor <;> dsimp only
    · exact hg.lenR
    · simp [hg.lenW]
    · exact hg.lenM0
    · simp [hg.lenM1]
    · exact hg.lenE0
    · simp [hg.lenE1]
    · exact hg.lenR1
    · exact hg.lenW1
    · exact hg.cap1_le
    · exact hg.max_ge
    · exact hg.max_lt
    · exact hg.bitsR
    · intro a ha
      rw [FD_ISSET_FD_SET] at ha
      simp only [Bool.or_eq_true, Bool.and_eq_true, decide_eq_true_eq] at ha
      rcases ha with ha | ⟨ha, -⟩
      · exact hg.bitsW a ha
      · rw [ha]; exact hle
    · exact hg.slotR
    · intro a
      rw [FD_ISSET_FD_SET, getD_set_none]
      by_cases hfa : fd = a
      · subst hfa
        have : fd < g._fd2ev1.length := by rw [hg.lenE1]; omega
        simp [this, hin]
      · have hfa2 : ¬ a = fd := fun hh => hfa hh.symm
        simp only [hfa, hfa2, false_and, if_false, decide_False, Bool.false_and, Bool.or_false]
        exact hg.slotW a
    · exact hg.evR
    · intro a ev hev
      rw [getD_set_none] at hev
      split at hev
      · rename_i hc
        cases hev
        exact ⟨hc.1, rfl⟩
      · exact hg.evW a ev hev
    · exact hg.byteM0
    · intro b hb
      rcases List.mem_or_eq_of_mem_set hb with hb | hb
      · exact hg.byteM1 b hb
      · rw [hb]
        apply set_bit_lt_256 _ _ _ (Nat.mod_lt _ (by norm_num))
        have hin2 : fd / 8 < g._M1.length := by rw [hg.lenM1]; omega
        rw [List.getD_eq_getElem _ _ hin2]
        exact hg.byteM1 _ (List.getElem_mem _)

theorem shrink_max_fd_bounds (R W : List Nat) (n : Nat) :
    -1 ≤ shrink_max_fd R W n ∧ shrink_max_fd R W n < (n : Int) := by
  induction n with
  | zero => simp [shrink_max_fd]
  | succ m ih =>
    unfold shrink_max_fd
    split
    · push_cast; omega
    · omega

theorem shrink_max_fd_upper (R W : List Nat) (n fd : Nat) (hfd : fd < n)
    (hb : FD_ISSET fd R = true ∨ FD_ISSET fd W = true) : (fd : Int) ≤ shrink_max_fd R W n := by
  induction n with
  | zero => omega
  | succ m ih =>
    unfold shrink_max_fd
    split
    · rename_i hc
      simp only [Bool.and_eq_true, Bool.not_eq_true'] at hc
      have hne : fd ≠ m := by
        intro he
        subst he
        rcases hb with hb | hb
        · rw [hc.1] at hb; exact Bool.noConfusion hb
        · rw [hc.2] at hb; exact Bool.noConfusion hb
      exact ih (by omega)
    · omega

theorem shrink_max_fd_tight (R W : List Nat) (n : Nat) (h0 : 0 ≤ shrink_max_fd R W n) :
    FD_ISSET (shrink_max_fd R W n).toNat R = true ∨
      FD_ISSET (shrink_max_fd R W n).toNat W = true := by
  induction n with
  | zero => simp [shrink_max_fd] at h0
  | succ m ih =>
    unfold shrink_max_fd at h0 ⊢
    split
    · rename_i hc
      rw [if_pos hc] at h0
      exact ih h0
    · rename_i hc
      simp only [Bool.and_eq_true, Bool.not_eq_true', not_and, Bool.not_eq_false] at hc
      simp only [Int.toNat_ofNat]
      by_cases hr : FD_ISSET m R = true
      · exact Or.inl hr
      · exact Or.inr (hc (by simpa using hr))

theorem Inv_remove (s : Select) (e : Event) (h : Inv s) : Inv (_remove s e) := by
  unfold _remove
  have hg := Inv_recap s e.descriptor h
  generalize _recap s e.descriptor = g at hg
  have hlt := hg.max_lt
  have hge := hg.max_ge
  cases e with
  | mk addr fd type =>
  dsimp only
  cases type with
  | NONE =>
    dsimp only
    have hb := shrink_max_fd_bounds g._R0 g._W0 (g._max_fd + 1).toNat
    constructor <;> dsimp only
    · exact hg.lenR
    · exact hg.lenW
    · exact hg.lenM0
    · exact hg.lenM1
    · exact hg.lenE0
    · exact hg.lenE1
    · exact hg.lenR1
    · exact hg.lenW1
    · exact hg.cap1_le
    · exact hb.1
    · omega
    · intro a ha
      exact shrink_max_fd_upper _ _ _ _ (by have := hg.bitsR a ha; omega) (Or.inl ha)
    · intro a ha
      exact shrink_max_fd_upper _ _ _ _ (by have := hg.bitsW a ha; omega) (Or.inr ha)
    · exact hg.slotR
    · exact hg.slotW
    · exact hg.evR
    · exact hg.evW
    · exact hg.byteM0
    · exact hg.byteM1
  | READ =>
    dsimp only
    have hb := shrink_max_fd_bounds (FD_CLR fd g._R0) g._W0 (g._max_fd + 1).toNat
    constructor <;> dsimp only
    · simp [hg.lenR]
    · exact hg.lenW
    · simp [hg.lenM0]
    · exact hg.lenM1
    · simp [hg.lenE0]
    · exact hg.lenE1
    · exact hg.lenR1
    · exact hg.lenW1
    · exact hg.cap1_le
    · exact hb.1
    · omega
    · intro a ha
      have ha2 : FD_ISSET a g._R0 = true := by
        rw [FD_ISSET_FD_CLR] at ha
        simp only [Bool.and_eq_true] at ha
        exact ha.1
      exact shrink_max_fd_upper _ _ _ _ (by have := hg.bitsR a ha2; omega) (Or.inl ha)
    · intro a ha
      exact shrink_max_fd_upper _ _ _ _ (by have := hg.bitsW a ha; omega) (Or.inr ha)
    · intro a
      rw [FD_ISSET_FD_CLR, getD_set_none]
      by_cases hfa : fd = a
      · subst hfa
        by_cases hl : fd < g._fd2ev0.length
        · simp [hl]
        · have hz : FD_ISSET fd g._R0 = false :=
            FD_ISSET_out _ _ (by rw [hg.lenR]; rw [hg.lenE0] at hl; omega)
          simp only [hl, and_false, if_false, hg.slotR fd, hz]
          simp
      · have hfa2 : ¬ a = fd := fun hh => hfa hh.symm
        simp only [hfa, hfa2, false_and, if_false, decide_False, Bool.not_false, Bool.and_true]
        exact hg.slotR a
    · exact hg.slotW
    · intro a ev hev
      rw [getD_set_none] at hev
      split at hev
      · exact Option.noConfusion hev
      · exact hg.evR a ev hev
    · exact hg.evW
    · intro b hb
      rcases List.mem_or_eq_of_mem_set hb with hb | hb
      · exact hg.byteM0 b hb
      · rw [hb]
        exact clr_bit_lt_256 _ _ (Nat.mod_lt _ (by norm_num))
    · exact hg.byteM1
  | WRITE =>
    dsimp only
    have hb := shrink_max_fd_bounds g._R0 (FD_CLR fd g._W0) (g._max_fd + 1).toNat
    constructor <;> dsimp only
    · exact hg.lenR
    · simp [hg.lenW]
    · exact hg.lenM0
    · simp [hg.lenM1]
    · exact hg.lenE0
    · simp [hg.lenE1]
    · exact hg.lenR1
    · exact hg.lenW1
    · exact hg.cap1_le
    · exact hb.1
    · omega
    · intro a ha
      exact shrink_max_fd_upper _ _ _ _ (by have := hg.bitsR a ha; omega) (Or.inl ha)
    · intro a ha
      have ha2 : FD_ISSET a g._W0 = true := by
        rw [FD_ISSET_FD_CLR] at ha
        simp only [Bool.and_eq_true] at ha
        exact ha.1
      exact shrink_max_fd_upper _ _ _ _ (by have := hg.bitsW a ha2; omega) (Or.inr ha)
    · exact hg.slotR
    · intro a
      rw [FD_ISSET_FD_CLR, getD_set_none]
      by_cases hfa : fd = a
      · subst hfa
        by_cases hl : fd < g._fd2ev1.length
        · simp [hl]
        · have hz : FD_ISSET fd g._W0 = false :=
            FD_ISSET_out _ _ (by rw [hg.lenW]; rw [hg.lenE1] at hl; omega)
          simp only [hl, and_false, if_false, hg.slotW fd, hz]
          simp
      · have hfa2 : ¬ a = fd := fun hh => hfa hh.symm
        simp only [hfa, hfa2, false_and, if_false, decide_False, Bool.not_false, Bool.and_true]
        exact hg.slotW a
    · exact hg.evR
    · intro a ev hev
      rw [getD_set_none] at hev
      split at hev
      · exact Option.noConfusion hev
      · exact hg.evW a ev hev
    · exact hg.byteM0
    · intro b hb
      rcases List.mem_or_eq_of_mem_set hb with hb | hb
      · exact hg.byteM1 b hb
      · rw [hb]
        exact clr_bit_lt_256 _ _ (Nat.mod_lt _ (by norm_num))

theorem Inv_freeze (s : Select) (e : Event) (h : Inv s) : Inv (_freeze s e) := by
  unfold _freeze
  have hg := Inv_recap s e.descriptor h
  generalize _recap s e.descriptor = g at hg
  cases e with
  | mk addr fd type =>
  dsimp only
  cases type with
  | NONE => exact hg
  | READ =>
    dsimp only
    refine { hg with lenM0 := ?_, byteM0 := ?_ }
    · simp [hg.lenM0]
    · intro b hb
      rcases List.mem_or_eq_of_mem_set hb with hb | hb
      · exact hg.byteM0 b hb
      · rw [hb]
        exact clr_bit_lt_256 _ _ (Nat.mod_lt _ (by norm_num))
  | WRITE =>
    dsimp only
    refine { hg with lenM1 := ?_, byteM1 := ?_ }
    · simp [hg.lenM1]
    · intro b hb
      rcases List.mem_or_eq_of_mem_set hb with hb | hb
      · exact hg.byteM1 b hb
      · rw [hb]
        exact clr_bit_lt_256 _ _ (Nat.mod_lt _ (by norm_num))

theorem set_byte_lt_256 (fd : Nat) (M : List Nat) (hM : ∀ b ∈ M, b < 256) :
    ∀ b ∈ FD_SET fd M, b < 256 := by
  intro b hb
  rcases List.mem_or_eq_of_mem_set hb with hb | hb
  · exact hM b hb
  · rw [hb]
    apply set_bit_lt_256 _ _ _ (Nat.mod_lt _ (by norm_num))
    by_cases hin : fd / 8 < M.length
    · rw [List.getD_eq_getElem _ _ hin]
      exact hM _ (List.getElem_mem _)
    · rw [List.getD_eq_default _ _ (by omega)]
      norm_num

theorem Inv_thaw (s : Select) (e : Event) (h : Inv s) : Inv (_thaw s e) := by
  unfold _thaw
  have hg := Inv_recap s e.descriptor h
  generalize _recap s e.descriptor = g at hg
  cases e with
  | mk addr fd type =>
  dsimp only
  cases type with
  | NONE => exact hg
  | READ =>
    dsimp only
    refine { hg with lenM0 := ?_, byteM0 := ?_ }
    · simp [hg.lenM0]
    · exact set_byte_lt_256 fd _ hg.byteM0
  | WRITE =>
    dsimp only
    refine { hg with lenM1 := ?_, byteM1 := ?_ }
    · simp [hg.lenM1]
    · exact set_byte_lt_256 fd _ hg.byteM1

/-! ## The poll cycle touches the transient side only -/

theorem length_make_pollee (dst inp mask : List Nat) (size : Nat) :
    (_make_pollee dst inp mask size).length = dst.length := by
  induction dst generalizing inp mask size with
  | nil => simp [_make_pollee]
  | cons d dst ih =>
    cases inp with
    | nil => simp [_make_pollee]
    | cons i inp =>
      cases mask with
      | nil => simp [_make_pollee]
      | cons m mask =>
        cases size with
        | zero => simp [_make_pollee]
        | succ n => simp [_make_pollee, ih]

theorem length_write_back (res buf : List Nat) : (write_back res buf).length = buf.length := by
  induction res generalizing buf with
  | nil => simp [write_back]
  | cons r res ih =>
    cases buf with
    | nil => simp [write_back]
    | cons b buf => simp [write_back, ih]

theorem length_realloc {α : Type} (p : List α) (n : Nat) (j : α) : (realloc p n j).length = n := by
  simp [realloc]
  omega

/-- The state `s` with its transient side replaced. -/
theorem Inv_transient (s : Select) (a b : List Nat) (c : Nat) (h : Inv s) (ha : a.length = c)
    (hb : b.length = c) (hc : c ≤ s._cap0) : Inv { s with _R1 := a, _W1 := b, _cap1 := c } :=
  { h with lenR1 := ha, lenW1 := hb, cap1_le := hc }

theorem make_snapshot_eq (s : Select) (h : Inv s) :
    ∃ a b c, make_snapshot s = { s with _R1 := a, _W1 := b, _cap1 := c } ∧
      a.length = c ∧ b.length = c ∧ c ≤ s._cap0 := by
  unfold make_snapshot
  by_cases hc : s._cap1 < s._cap0
  · simp only [hc, if_true]
    refine ⟨_, _, s._cap0, rfl, ?_, ?_, le_refl _⟩
    · rw [length_make_pollee, length_realloc]
    · rw [length_make_pollee, length_realloc]
  · simp only [hc, if_false]
    refine ⟨_, _, s._cap1, rfl, ?_, ?_, h.cap1_le⟩
    · rw [length_make_pollee, h.lenR1]
    · rw [length_make_pollee, h.lenW1]

theorem issue_select_eq (s : Select) (sys : List SelectOutcome) (r : Select × Option Nat × Nat)
    (h : issue_select s sys = some r) :
    ∃ a b, r.1 = { s with _R1 := a, _W1 := b } ∧ a.length = s._R1.length ∧
      b.length = s._W1.length := by
  induction sys generalizing r with
  | nil => simp [issue_select] at h
  | cons o rest ih =>
    cases o with
    | fail errno =>
      simp only [issue_select] at h
      split at h
      · simp only [Option.map_eq_some'] at h
        obtain ⟨r', hr', hr⟩ := h
        obtain ⟨a, b, h1, h2, h3⟩ := ih r' hr'
        refine ⟨a, b, ?_, h2, h3⟩
        rw [← hr]
        exact h1
      · cases h
        exact ⟨s._R1, s._W1, rfl, rfl, rfl⟩
    | ok rd wr ex =>
      simp only [issue_select] at h
      cases h
      exact ⟨_, _, rfl, length_write_back _ _, length_write_back _ _⟩

theorem select_state_eq (s : Select) (sys : List SelectOutcome) (r : PollResult) (h : Inv s)
    (hr : _select s sys = some r) :
    ∃ a b c, r.state = { s with _R1 := a, _W1 := b, _cap1 := c } ∧
      a.length = c ∧ b.length = c ∧ c ≤ s._cap0 := by
  unfold _select at hr
  by_cases h1 : s._max_fd = -1
  · rw [if_pos h1] at hr
    cases hr
    exact ⟨s._R1, s._W1, s._cap1, rfl, h.lenR1, h.lenW1, h.cap1_le⟩
  · rw [if_neg h1] at hr
    obtain ⟨a, b, c, hs, ha, hb, hc⟩ := make_snapshot_eq s h
    dsimp only at hr
    cases hi : issue_select (make_snapshot s) sys with
    | none => rw [hi] at hr; cases hr
    | some q =>
      obtain ⟨a', b', hq, ha', hb'⟩ := issue_select_eq _ _ q hi
      rw [hs] at hq ha' hb'
      dsimp only at hq ha' hb'
      have hst : r.state = q.1 := by
        rw [hi] at hr
        obtain ⟨s1, err, n⟩ := q
        cases err with
        | some errno => cases hr; rfl
        | none =>
          dsimp only at hr
          split at hr <;> cases hr <;> rfl
      rw [hst, hq]
      exact ⟨a', b', c, rfl, by omega, by omega, hc⟩

theorem Inv_select (s : Select) (sys : List SelectOutcome) (r : PollResult) (h : Inv s)
    (hr : _select s sys = some r) : Inv r.state := by
  obtain ⟨a, b, c, hs, ha, hb, hc⟩ := select_state_eq s sys r h hr
  rw [hs]
  exact Inv_transient s a b c h ha hb hc

theorem Inv_apply (s : Select) (o : Op) (h : Inv s) : Inv (o.apply s) := by
  cases o with
  | insert e => exact Inv_insert s e h
  | remove e => exact Inv_remove s e h
  | freeze e => exact Inv_freeze s e h
  | thaw e => exact Inv_thaw s e h

theorem Reachable.inv {s : Select} (h : Reachable s) : Inv s := by
  induction h with
  | empty handler => exact Inv_empty handler
  | op s o _ ih => exact Inv_apply s o ih
  | poll s sys r _ hr ih => exact Inv_select s sys r ih hr

theorem Reachable.run {s : Select} (h : Reachable s) (ops : List Op) : Reachable (run s ops) := by
  induction ops generalizing s with
  | nil => exact h
  | cons o ops ih => exact ih (Reachable.op s o h)

theorem remove_max_fd_eq (s : Select) (e : Event) :
    (_remove s e)._max_fd =
      shrink_max_fd (_remove s e)._R0 (_remove s e)._W0
        ((_recap s e.descriptor)._max_fd + 1).toNat := by
  unfold _remove
  cases e with
  | mk addr fd type => cases type <;> rfl

theorem remove_cap0_eq (s : Select) (e : Event) :
    (_remove s e)._cap0 = (_recap s e.descriptor)._cap0 := by
  unfold _remove
  cases e with
  | mk addr fd type => cases type <;> rfl

theorem le_cap0_recap (s : Select) (fd : Nat) (h : Inv s) : s._cap0 ≤ (_recap s fd)._cap0 := by
  obtain ⟨k, hk, -, -⟩ := recap_eq_grown s h fd
  rw [hk]
  simp [grown]

/-! ## What each call does to the observations -/

theorem persistent_recap (s : Select) (fd : Nat) (h : Inv s) (dir : EventType) (a : Nat) :
    persistent (_recap s fd) dir a = persistent s dir a := by
  obtain ⟨k, hk, -, -⟩ := recap_eq_grown s h fd
  rw [hk]
  cases dir <;> simp [persistent, grown, FD_ISSET_append_zero]

theorem slot_recap (s : Select) (fd : Nat) (h : Inv s) (dir : EventType) (a : Nat) :
    slot (_recap s fd) dir a = slot s dir a := by
  obtain ⟨k, hk, -, -⟩ := recap_eq_grown s h fd
  rw [hk]
  cases dir <;> simp only [slot, grown, getD_append_none]

theorem active_recap (s : Select) (fd : Nat) (h : Inv s) (dir : EventType) (a : Nat)
    (ha : a < s._cap0 * 8) : active (_recap s fd) dir a = active s dir a := by
  obtain ⟨k, hk, -, -⟩ := recap_eq_grown s h fd
  rw [hk]
  cases dir with
  | NONE => rfl
  | READ => exact FD_ISSET_append_of_lt _ _ _ (by rw [h.lenM0]; omega)
  | WRITE => exact FD_ISSET_append_of_lt _ _ _ (by rw [h.lenM1]; omega)

theorem persistent_insert (s : Select) (e : Event) (h : Inv s) (dir : EventType) (fd : Nat) :
    persistent (_insert s e) dir fd =
      (persistent s dir fd ||
        (decide (dir = e.type) && decide (fd = e.descriptor) && decide (dir ≠ EventType.NONE))) := by
  rw [← persistent_recap s e.descriptor h dir fd]
  have hg := Inv_recap s e.descriptor h
  have hle := le_max_fd_recap s e.descriptor
  unfold _insert
  generalize _recap s e.descriptor = g at hg hle
  obtain ⟨addr, d, t⟩ := e
  dsimp only at hle ⊢
  have hin : d / 8 < g._cap0 := by have := hg.max_lt; omega
  cases t <;> cases dir <;> simp [persistent, FD_ISSET_FD_SET, hg.lenR, hg.lenW, hin]

theorem slot_insert (s : Select) (e : Event) (h : Inv s) (dir : EventType) (fd : Nat) :
    slot (_insert s e) dir fd =
      if dir = e.type ∧ fd = e.descriptor ∧ dir ≠ EventType.NONE then some e
      else slot s dir fd := by
  rw [← slot_recap s e.descriptor h dir fd]
  have hg := Inv_recap s e.descriptor h
  have hle := le_max_fd_recap s e.descriptor
  unfold _insert
  generalize _recap s e.descriptor = g at hg hle
  obtain ⟨addr, d, t⟩ := e
  dsimp only at hle ⊢
  have hin : d < g._cap0 * 8 := by have := hg.max_lt; omega
  cases t <;> cases dir <;> simp only [slot, getD_set_none, hg.lenE0, hg.lenE1, hin] <;>
    simp [eq_comm]

theorem active_insert (s : Select) (e : Event) (h : Inv s) (dir : EventType) (fd : Nat) :
    active (_insert s e) dir fd =
      (active (_recap s e.descriptor) dir fd ||
        (decide (dir = e.type) && decide (fd = e.descriptor) && decide (dir ≠ EventType.NONE))) := by
  have hg := Inv_recap s e.descriptor h
  have hle := le_max_fd_recap s e.descriptor
  unfold _insert
  generalize _recap s e.descriptor = g at hg hle
  obtain ⟨addr, d, t⟩ := e
  dsimp only at hle ⊢
  have hin : d / 8 < g._cap0 := by have := hg.max_lt; omega
  cases t <;> cases dir <;> simp [active, FD_ISSET_FD_SET, hg.lenM0, hg.lenM1, hin]

theorem persistent_remove (s : Select) (e : Event) (h : Inv s) (dir : EventType) (fd : Nat) :
    persistent (_remove s e) dir fd =
      (persistent s dir fd && !(decide (dir = e.type) && decide (fd = e.descriptor))) := by
  rw [← persistent_recap s e.descriptor h dir fd]
  unfold _remove
  generalize _recap s e.descriptor = g
  obtain ⟨addr, d, t⟩ := e
  cases t <;> cases dir <;> simp [persistent, FD_ISSET_FD_CLR]

theorem slot_remove (s : Select) (e : Event) (h : Inv s) (dir : EventType) (fd : Nat) :
    slot (_remove s e) dir fd =
      if dir = e.type ∧ fd = e.descriptor then none else slot s dir fd := by
  rw [← slot_recap s e.descriptor h dir fd]
  have hg := Inv_recap s e.descriptor h
  have hle := le_max_fd_recap s e.descriptor
  unfold _remove
  generalize _recap s e.descriptor = g at hg hle
  obtain ⟨addr, d, t⟩ := e
  dsimp only at hle ⊢
  have hin : d < g._cap0 * 8 := by have := hg.max_lt; omega
  cases t <;> cases dir <;> simp only [slot, getD_set_none, hg.lenE0, hg.lenE1, hin] <;>
    simp [eq_comm]

theorem active_remove (s : Select) (e : Event) (dir : EventType) (fd : Nat) :
    active (_remove s e) dir fd =
      (active (_recap s e.descriptor) dir fd &&
        !(decide (dir = e.type) && decide (fd = e.descriptor))) := by
  unfold _remove
  generalize _recap s e.descriptor = g
  obtain ⟨addr, d, t⟩ := e
  cases t <;> cases dir <;> simp [active, FD_ISSET_FD_CLR]

theorem persistent_freeze (s : Select) (e : Event) (h : Inv s) (dir : EventType) (fd : Nat) :
    persistent (_freeze s e) dir fd = persistent s dir fd := by
  rw [← persistent_recap s e.descriptor h dir fd]
  unfold _freeze
  generalize _recap s e.descriptor = g
  obtain ⟨addr, d, t⟩ := e
  cases t <;> cases dir <;> rfl

theorem slot_freeze (s : Select) (e : Event) (h : Inv s) (dir : EventType) (fd : Nat) :
    slot (_freeze s e) dir fd = slot s dir fd := by
  rw [← slot_recap s e.descriptor h dir fd]
  unfold _freeze
  generalize _recap s e.descriptor = g
  obtain ⟨addr, d, t⟩ := e
  cases t <;> cases dir <;> rfl

theorem active_freeze (s : Select) (e : Event) (dir : EventType) (fd : Nat) :
    active (_freeze s e) dir fd =
      (active (_recap s e.descriptor) dir fd &&
        !(decide (dir = e.type) && decide (fd = e.descriptor))) := by
  unfold _freeze
  generalize _recap s e.descriptor = g
  obtain ⟨addr, d, t⟩ := e
  cases t <;> cases dir <;> simp [active, FD_ISSET_FD_CLR]

theorem persistent_thaw (s : Select) (e : Event) (h : Inv s) (dir : EventType) (fd : Nat) :
    persistent (_thaw s e) dir fd = persistent s dir fd := by
  rw [← persistent_recap s e.descriptor h dir fd]
  unfold _thaw
  generalize _recap s e.descriptor = g
  obtain ⟨addr, d, t⟩ := e
  cases t <;> cases dir <;> rfl

theorem slot_thaw (s : Select) (e : Event) (h : Inv s) (dir : EventType) (fd : Nat) :
    slot (_thaw s e) dir fd = slot s dir fd := by
  rw [← slot_recap s e.descriptor h dir fd]
  unfold _thaw
  generalize _recap s e.descriptor = g
  obtain ⟨addr, d, t⟩ := e
  cases t <;> cases dir <;> rfl

theorem active_thaw (s : Select) (e : Event) (h : Inv s) (dir : EventType) (fd : Nat) :
    active (_thaw s e) dir fd =
      (active (_recap s e.descriptor) dir fd ||
        (decide (dir = e.type) && decide (fd = e.descriptor) && decide (dir ≠ EventType.NONE))) := by
  have hg := Inv_recap s e.descriptor h
  have hle := le_max_fd_recap s e.descriptor
  unfold _thaw
  generalize _recap s e.descriptor = g at hg hle
  obtain ⟨addr, d, t⟩ := e
  dsimp only at hle ⊢
  have hin : d / 8 < g._cap0 := by have := hg.max_lt; omega
  cases t <;> cases dir <;> simp [active, FD_ISSET_FD_SET, hg.lenM0, hg.lenM1, hin]

theorem persistent_le_max_fd (s : Select) (h : Inv s) (dir : EventType) (fd : Nat)
    (hp : persistent s dir fd = true) : (fd : Int) ≤ s._max_fd := by
  cases dir with
  | NONE => exact Bool.noConfusion hp
  | READ => exact h.bitsR fd hp
  | WRITE => exact h.bitsW fd hp

theorem slot_isSome (s : Select) (h : Inv s) (dir : EventType) (fd : Nat) :
    (slot s dir fd).isSome = persistent s dir fd := by
  cases dir with
  | NONE => rfl
  | READ => exact h.slotR fd
  | WRITE => exact h.slotW fd

theorem slot_event (s : Select) (h : Inv s) (dir : EventType) (fd : Nat) (ev : Event)
    (hs : slot s dir fd = some ev) : ev.descriptor = fd ∧ ev.type = dir := by
  cases dir with
  | NONE => exact Option.noConfusion hs
  | READ => exact h.evR fd ev hs
  | WRITE => exact h.evW fd ev hs

/-! ## The working snapshot -/

theorem getD_make_pollee (dst inp mask : List Nat) (n i : Nat) :
    (_make_pollee dst inp mask n).getD i 0 =
      if i < n ∧ i < dst.length ∧ i < inp.length ∧ i < mask.length then
        inp.getD i 0 &&& mask.getD i 0
      else dst.getD i 0 := by
  induction dst generalizing inp mask n i with
  | nil => simp [_make_pollee]
  | cons d dst ih =>
    cases inp with
    | nil => simp [_make_pollee]
    | cons a inp =>
      cases mask with
      | nil => simp [_make_pollee]
      | cons m mask =>
        cases n with
        | zero => simp [_make_pollee]
        | succ n =>
          cases i with
          | zero => simp [_make_pollee]
          | succ i =>
            have := ih inp mask n i
            simp only [_make_pollee, List.getD_cons_succ, List.length_cons,
              Nat.add_lt_add_iff_right] at this ⊢
            exact this

theorem make_snapshot_buffers (s : Select) (h : Inv s) :
    ∃ dR dW, (make_snapshot s)._R1 =
        _make_pollee dR s._R0 s._M0 (if s._max_fd = -1 then 0 else (s._max_fd / 8 + 1).toNat) ∧
      (make_snapshot s)._W1 =
        _make_pollee dW s._W0 s._M1 (if s._max_fd = -1 then 0 else (s._max_fd / 8 + 1).toNat) ∧
      s._cap0 ≤ dR.length ∧ s._cap0 ≤ dW.length := by
  unfold make_snapshot
  by_cases hc : s._cap1 < s._cap0
  · simp only [hc, if_true]
    exact ⟨_, _, rfl, rfl, by rw [length_realloc], by rw [length_realloc]⟩
  · simp only [hc, if_false]
    exact ⟨_, _, rfl, rfl, by rw [h.lenR1]; omega, by rw [h.lenW1]; omega⟩

theorem make_snapshot_bytes (s : Select) (h : Inv s) (h0 : 0 ≤ s._max_fd) (i : Nat)
    (hi : i < (s._max_fd / 8 + 1).toNat) :
    (make_snapshot s)._R1.getD i 0 = s._R0.getD i 0 &&& s._M0.getD i 0 ∧
      (make_snapshot s)._W1.getD i 0 = s._W0.getD i 0 &&& s._M1.getD i 0 := by
  obtain ⟨dR, dW, hR, hW, hlR, hlW⟩ := make_snapshot_buffers s h
  have hne : ¬ s._max_fd = -1 := by omega
  rw [if_neg hne] at hR hW
  have hlt := h.max_lt
  have hic : i < s._cap0 := by omega
  rw [hR, hW, getD_make_pollee, getD_make_pollee,
    if_pos ⟨hi, by omega, by rw [h.lenR]; exact hic, by rw [h.lenM0]; exact hic⟩,
    if_pos ⟨hi, by omega, by rw [h.lenW]; exact hic, by rw [h.lenM1]; exact hic⟩]
  exact ⟨rfl, rfl⟩

theorem working_make_snapshot (s : Select) (h : Inv s) (dir : EventType) (fd : Nat)
    (hfd : (fd : Int) ≤ s._max_fd) :
    working (make_snapshot s) dir fd = (persistent s dir fd && active s dir fd) := by
  have hi : fd / 8 < (s._max_fd / 8 + 1).toNat := by omega
  have hb := make_snapshot_bytes s h (by omega) (fd / 8) hi
  cases dir with
  | NONE => rfl
  | READ =>
    simp only [working, persistent, active, FD_ISSET_eq]
    rw [hb.1, Nat.testBit_and]
  | WRITE =>
    simp only [working, persistent, active, FD_ISSET_eq]
    rw [hb.2, Nat.testBit_and]

/-! ## The poll cycle -/

theorem dispatch_loop_eq (s : Select) (n : Nat) (trace : List Event) :
    dispatch_loop s n trace = trace ++ ((List.range n).reverse).flatMap (dispatch_at s) := by
  induction n generalizing trace with
  | zero => simp [dispatch_loop]
  | succ fd ih =>
    rw [dispatch_loop, ih, List.range_succ, List.reverse_append]
    simp only [List.reverse_cons, List.reverse_nil, List.nil_append, List.singleton_append,
      List.flatMap_cons, dispatch_at, working, slot]
    cases FD_ISSET fd s._R1 <;> cases FD_ISSET fd s._W1 <;>
      cases s._fd2ev0.getD fd none <;> cases s._fd2ev1.getD fd none <;> simp

theorem select_cases (s : Select) (sys : List SelectOutcome) (r : PollResult)
    (h : _select s sys = some r) :
    (s._max_fd = -1 ∧ r = { state := s, trace := [], error := none, calls := 0 }) ∨
      (s._max_fd ≠ -1 ∧ ∃ s1 err n, issue_select (make_snapshot s) sys = some (s1, err, n) ∧
        r = { state := s1,
              trace := if err = none ∧ s1._handler = true then
                dispatch_loop s1 (s._max_fd + 1).toNat [] else [],
              error := err, calls := n }) := by
  unfold _select at h
  by_cases h1 : s._max_fd = -1
  · rw [if_pos h1] at h
    cases h
    exact Or.inl ⟨h1, rfl⟩
  · rw [if_neg h1] at h
    right
    refine ⟨h1, ?_⟩
    dsimp only at h
    cases hi : issue_select (make_snapshot s) sys with
    | none => rw [hi] at h; cases h
    | some q =>
      obtain ⟨s1, err, n⟩ := q
      rw [hi] at h
      refine ⟨s1, err, n, rfl, ?_⟩
      cases err with
      | some errno =>
        cases h
        simp
      | none =>
        dsimp only at h
        by_cases hh : s1._handler = true
        · rw [if_pos hh] at h
          cases h
          simp [hh]
        · rw [if_neg hh] at h
          cases h
          simp [hh]

theorem issue_select_ok (s : Select) (sys : List SelectOutcome) (s1 : Select) (n : Nat)
    (h : issue_select s sys = some (s1, none, n)) :
    ∃ rd wr ex, SelectOutcome.ok rd wr ex ∈ sys ∧
      s1 = { s with _R1 := write_back rd s._R1, _W1 := write_back wr s._W1 } := by
  induction sys generalizing n with
  | nil => simp [issue_select] at h
  | cons o rest ih =>
    cases o with
    | fail errno =>
      simp only [issue_select] at h
      split at h
      · simp only [Option.map_eq_some'] at h
        obtain ⟨⟨s2, e2, n2⟩, hr', hr⟩ := h
        simp only [Prod.mk.injEq] at hr
        obtain ⟨h1, h2, -⟩ := hr
        subst h1 h2
        obtain ⟨rd, wr, ex, hm, hs⟩ := ih n2 hr'
        exact ⟨rd, wr, ex, List.mem_cons_of_mem _ hm, hs⟩
      · simp at h
    | ok rd wr ex =>
      simp only [issue_select, Option.some.injEq, Prod.mk.injEq] at h
      exact ⟨rd, wr, ex, List.mem_cons_self _ _, h.1.symm⟩

theorem max_fd_make_snapshot (s : Select) : (make_snapshot s)._max_fd = s._max_fd := by
  by_cases hc : s._cap1 < s._cap0 <;> simp [make_snapshot, hc]

theorem handler_make_snapshot (s : Select) : (make_snapshot s)._handler = s._handler := by
  by_cases hc : s._cap1 < s._cap0 <;> simp [make_snapshot, hc]

theorem slot_make_snapshot (s : Select) (dir : EventType) (fd : Nat) :
    slot (make_snapshot s) dir fd = slot s dir fd := by
  by_cases hc : s._cap1 < s._cap0 <;> cases dir <;> simp [make_snapshot, hc, slot]

theorem issue_select_frame (s : Select) (sys : List SelectOutcome)
    (r : Select × Option Nat × Nat) (h : issue_select s sys = some r) :
    r.1._max_fd = s._max_fd ∧ r.1._handler = s._handler ∧
      (∀ dir fd, slot r.1 dir fd = slot s dir fd) ∧
      (r.2.1 ≠ none → r.1 = s) := by
  induction sys generalizing r with
  | nil => simp [issue_select] at h
  | cons o rest ih =>
    cases o with
    | fail errno =>
      simp only [issue_select] at h
      split at h
      · simp only [Option.map_eq_some'] at h
        obtain ⟨r', hr', hr⟩ := h
        rw [← hr]
        exact ih r' hr'
      · cases h
        exact ⟨rfl, rfl, fun _ _ => rfl, fun _ => rfl⟩
    | ok rd wr ex =>
      simp only [issue_select] at h
      cases h
      exact ⟨rfl, rfl, fun _ _ => rfl, fun hc => absurd rfl hc⟩

theorem select_trace (s : Select) (sys : List SelectOutcome) (r : PollResult)
    (h : _select s sys = some r) (he : r.error = none) (hh : s._handler = true) :
    r.trace = dispatch_order r.state := by
  rcases select_cases s sys r h with ⟨h1, hr⟩ | ⟨h1, s1, err, n, hi, hr⟩
  · rw [hr]
    simp [dispatch_order, h1]
  · obtain ⟨hm, hhd, -, -⟩ := issue_select_frame _ _ _ hi
    rw [hr] at he ⊢
    dsimp only at he hm hhd ⊢
    rw [max_fd_make_snapshot] at hm
    rw [handler_make_snapshot, hh] at hhd
    rw [if_pos ⟨he, hhd⟩, dispatch_loop_eq, dispatch_order, hm]
    simp

theorem mem_dispatch_at (s : Select) (fd : Nat) (ev : Event) :
    ev ∈ dispatch_at s fd ↔
      (working s EventType.READ fd = true ∧ slot s EventType.READ fd = some ev) ∨
        (working s EventType.WRITE fd = true ∧ slot s EventType.WRITE fd = some ev) := by
  unfold dispatch_at
  rw [List.mem_append]
  constructor
  · rintro (h | h)
    · left
      split at h
      · rename_i hw
        exact ⟨hw, by simpa [Option.mem_toList] using h⟩
      · simp at h
    · right
      split at h
      · rename_i hw
        exact ⟨hw, by simpa [Option.mem_toList] using h⟩
      · simp at h
  · rintro (⟨hw, hs⟩ | ⟨hw, hs⟩)
    · left
      rw [if_pos hw, hs]
      simp
    · right
      rw [if_pos hw, hs]
      simp

theorem nodup_dispatch_at (s : Select) (h : Inv s) (fd : Nat) : (dispatch_at s fd).Nodup := by
  unfold dispatch_at
  rw [List.nodup_append]
  refine ⟨?_, ?_, ?_⟩
  · split
    · cases slot s EventType.READ fd <;> simp
    · simp
  · split
    · cases slot s EventType.WRITE fd <;> simp
    · simp
  · intro a ha hb
    have h1 : slot s EventType.READ fd = some a := by
      split at ha
      · simpa [Option.mem_toList] using ha
      · simp at ha
    have h2 : slot s EventType.WRITE fd = some a := by
      split at hb
      · simpa [Option.mem_toList] using hb
      · simp at hb
    have t1 := (slot_event s h _ _ _ h1).2
    have t2 := (slot_event s h _ _ _ h2).2
    rw [t1] at t2
    exact EventType.noConfusion t2

theorem nodup_dispatch_order (s : Select) (h : Inv s) : (dispatch_order s).Nodup := by
  unfold dispatch_order
  rw [List.nodup_flatMap]
  refine ⟨fun fd _ => nodup_dispatch_at s h fd, ?_⟩
  apply List.Nodup.pairwise_of_forall_ne (List.nodup_reverse.mpr (List.nodup_range _))
  intro a _ b _ hab
  simp only [Function.onFun]
  intro ev ha hb
  rw [mem_dispatch_at] at ha hb
  have da : ev.descriptor = a := by
    rcases ha with ⟨-, hs⟩ | ⟨-, hs⟩ <;> exact (slot_event s h _ _ _ hs).1
  have db : ev.descriptor = b := by
    rcases hb with ⟨-, hs⟩ | ⟨-, hs⟩ <;> exact (slot_event s h _ _ _ hs).1
  exact hab (da.symm.trans db)

theorem mem_dispatch_order (s : Select) (ev : Event) :
    ev ∈ dispatch_order s ↔
      ∃ (dir : EventType) (fd : Nat),
        (fd : Int) ≤ s._max_fd ∧ working s dir fd = true ∧ slot s dir fd = some ev := by
  unfold dispatch_order
  simp only [List.mem_flatMap, List.mem_reverse, List.mem_range, mem_dispatch_at]
  constructor
  · rintro ⟨fd, hfd, h | h⟩
    · exact ⟨EventType.READ, fd, by omega, h.1, h.2⟩
    · exact ⟨EventType.WRITE, fd, by omega, h.1, h.2⟩
  · rintro ⟨dir, fd, hfd, hw, hs⟩
    refine ⟨fd, by omega, ?_⟩
    cases dir with
    | NONE => exact Bool.noConfusion hw
    | READ => exact Or.inl ⟨hw, hs⟩
    | WRITE => exact Or.inr ⟨hw, hs⟩

theorem issue_select_retry (s : Select) (N : Nat) (rd wr ex : List Nat)
    (rest : List SelectOutcome) :
    issue_select s (List.replicate N (SelectOutcome.fail EINTR) ++ SelectOutcome.ok rd wr ex :: rest)
      = some ({ s with _R1 := write_back rd s._R1, _W1 := write_back wr s._W1 }, none, N + 1) := by
  induction N with
  | zero => simp [issue_select]
  | succ n ih =>
    rw [List.replicate_succ, List.cons_append, issue_select, if_pos rfl, ih]
    rfl

theorem select_retry (s : Select) (N : Nat) (rd wr ex : List Nat) (rest : List SelectOutcome) :
    ∃ r, _select s (List.replicate N (SelectOutcome.fail EINTR) ++ SelectOutcome.ok rd wr ex :: rest)
      = some r ∧ r.error = none := by
  unfold _select
  by_cases h1 : s._max_fd = -1
  · rw [if_pos h1]
    exact ⟨_, rfl, rfl⟩
  · rw [if_neg h1]
    dsimp only
    rw [issue_select_retry]
    dsimp only
    split
    · exact ⟨_, rfl, rfl⟩
    · exact ⟨_, rfl, rfl⟩

theorem set_clr_bit (b k : Nat) (hb : b < 256) (hk : k < 8) (hs : b.testBit k = true) :
    (b &&& (255 ^^^ (1 <<< k))) ||| (1 <<< k) = b := by
  apply Nat.eq_of_testBit_eq
  intro j
  rw [testBit_set_bit, testBit_clr_bit _ _ _ hk]
  by_cases hj : k = j
  · subst hj
    simp [hs]
  · by_cases h8 : j < 8
    · simp [hj, h8]
    · simp [hj, h8, testBit_of_lt_256 b j hb (by omega)]

theorem set_getElem_same {α : Type} (l : List α) (i : Nat) (h : i < l.length) :
    l.set i l[i] = l := by
  apply List.ext_getElem?
  intro j
  rw [List.getElem?_set]
  by_cases hij : i = j
  · subst hij
    simp [h]
  · simp [hij]

theorem FD_SET_FD_CLR (fd : Nat) (M : List Nat) (hM : ∀ b ∈ M, b < 256)
    (hs : FD_ISSET fd M = true) : FD_SET fd (FD_CLR fd M) = M := by
  have hin := FD_ISSET_lt fd M hs
  rw [FD_ISSET_eq, List.getD_eq_getElem _ _ hin] at hs
  unfold FD_SET FD_CLR
  rw [List.set_set, List.getD_eq_getElem _ _ (by simpa using hin), List.getElem_set_self,
    List.getD_eq_getElem _ _ hin,
    set_clr_bit _ _ (hM _ (List.getElem_mem _)) (Nat.mod_lt _ (by norm_num)) hs]
  exact set_getElem_same M (fd / 8) hin

theorem freeze_eq_of_le (s : Select) (e : Event) (h : (e.descriptor : Int) ≤ s._max_fd) :
    _freeze s e =
      match e.type with
      | EventType.READ => with_masks s (FD_CLR e.descriptor s._M0) s._M1
      | EventType.WRITE => with_masks s s._M0 (FD_CLR e.descriptor s._M1)
      | EventType.NONE => s := by
  unfold _freeze
  rw [recap_of_le s _ h]
  cases e.type <;> rfl

theorem thaw_eq_of_le (s : Select) (e : Event) (h : (e.descriptor : Int) ≤ s._max_fd) :
    _thaw s e =
      match e.type with
      | EventType.READ => with_masks s (FD_SET e.descriptor s._M0) s._M1
      | EventType.WRITE => with_masks s s._M0 (FD_SET e.descriptor s._M1)
      | EventType.NONE => s := by
  unfold _thaw
  rw [recap_of_le s _ h]
  cases e.type <;> rfl

theorem with_masks_self (s : Select) : with_masks s s._M0 s._M1 = s := rfl

theorem exists_with_masks_freeze (s : Select) (e : Event) (h : (e.descriptor : Int) ≤ s._max_fd) :
    ∃ m0 m1, _freeze s e = with_masks s m0 m1 := by
  rw [freeze_eq_of_le s e h]
  cases e.type
  · exact ⟨_, _, (with_masks_self s).symm⟩
  · exact ⟨_, _, rfl⟩
  · exact ⟨_, _, rfl⟩

theorem exists_with_masks_thaw (s : Select) (e : Event) (h : (e.descriptor : Int) ≤ s._max_fd) :
    ∃ m0 m1, _thaw s e = with_masks s m0 m1 := by
  rw [thaw_eq_of_le s e h]
  cases e.type
  · exact ⟨_, _, (with_masks_self s).symm⟩
  · exact ⟨_, _, rfl⟩
  · exact ⟨_, _, rfl⟩

/-! ## The poll cycle and the active masks -/

theorem and_clr_bit (r m k : Nat) (hk : k < 8) (hm : m < 256) (hr : r.testBit k = false) :
    r &&& (m &&& (255 ^^^ (1 <<< k))) = r &&& m := by
  apply Nat.eq_of_testBit_eq
  intro j
  simp only [Nat.testBit_and, testBit_clr_bit _ _ _ hk]
  by_cases hj : k = j
  · subst hj
    simp [hr]
  · by_cases h8 : j < 8
    · simp [hj, h8]
    · simp [hj, h8, testBit_of_lt_256 m j hm (by omega)]

theorem list_ext_getD (l1 l2 : List Nat) (hl : l1.length = l2.length)
    (h : ∀ i, l1.getD i 0 = l2.getD i 0) : l1 = l2 := by
  apply List.ext_getElem hl
  intro i h1 h2
  have := h i
  rwa [List.getD_eq_getElem _ _ h1, List.getD_eq_getElem _ _ h2] at this

theorem make_pollee_FD_CLR (dst R M : List Nat) (n fd : Nat) (hM : ∀ b ∈ M, b < 256)
    (hR : FD_ISSET fd R = false) :
    _make_pollee dst R (FD_CLR fd M) n = _make_pollee dst R M n := by
  apply list_ext_getD
  · rw [length_make_pollee, length_make_pollee]
  · intro i
    rw [getD_make_pollee, getD_make_pollee, length_FD_CLR]
    split
    · rename_i hc
      by_cases hi : fd / 8 = i
      · subst hi
        have hin : fd / 8 < M.length := hc.2.2.2
        rw [FD_ISSET_eq] at hR
        have e1 : (FD_CLR (fd) M).getD (fd / 8) 0 =
            M.getD (fd / 8) 0 &&& (255 ^^^ (1 <<< (fd % 8))) := by
          unfold FD_CLR
          rw [List.getD_eq_getElem _ _ (by simpa using hin), List.getElem_set_self]
        rw [e1, List.getD_eq_getElem M _ hin]
        exact and_clr_bit _ _ _ (Nat.mod_lt _ (by norm_num)) (hM _ (List.getElem_mem _)) hR
      · unfold FD_CLR
        simp only [List.getD_eq_getElem?_getD, List.getElem?_set_ne hi]
    · rfl

theorem issue_select_with_masks (s : Select) (m0 m1 : List Nat) (sys : List SelectOutcome) :
    issue_select (with_masks s m0 m1) sys =
      (issue_select s sys).map (fun r => (with_masks r.1 m0 m1, r.2.1, r.2.2)) := by
  induction sys with
  | nil => rfl
  | cons o rest ih =>
    cases o with
    | fail errno =>
      simp only [issue_select]
      split
      · rw [ih]
        cases issue_select s rest <;> rfl
      · rfl
    | ok rd wr ex => rfl

theorem dispatch_loop_with_masks (s : Select) (m0 m1 : List Nat) (n : Nat) (t : List Event) :
    dispatch_loop (with_masks s m0 m1) n t = dispatch_loop s n t := by
  induction n generalizing t with
  | zero => rfl
  | succ fd ih =>
    rw [dispatch_loop, dispatch_loop, ih]
    rfl

theorem select_with_masks (s : Select) (m0 m1 : List Nat) (sys : List SelectOutcome)
    (hsnap : make_snapshot (with_masks s m0 m1) = with_masks (make_snapshot s) m0 m1) :
    _select (with_masks s m0 m1) sys =
      (_select s sys).map (fun r => { r with state := with_masks r.state m0 m1 }) := by
  unfold _select
  by_cases h1 : s._max_fd = -1
  · have h2 : (with_masks s m0 m1)._max_fd = -1 := h1
    rw [if_pos h1, if_pos h2]
    rfl
  · have h2 : ¬ (with_masks s m0 m1)._max_fd = -1 := h1
    rw [if_neg h1, if_neg h2]
    dsimp only
    rw [hsnap, issue_select_with_masks]
    cases issue_select (make_snapshot s) sys with
    | none => rfl
    | some q =>
      obtain ⟨s1, err, n⟩ := q
      cases err with
      | some errno => rfl
      | none =>
        simp only [Option.map_some']
        have h3 : (with_masks s1 m0 m1)._handler = s1._handler := rfl
        have h4 : (with_masks s m0 m1)._max_fd = s._max_fd := rfl
        rw [h3, h4, dispatch_loop_with_masks]
        split <;> rfl

theorem make_snapshot_with_masks (s : Select) (m0 m1 : List Nat)
    (hR : ∀ dst n, _make_pollee dst s._R0 m0 n = _make_pollee dst s._R0 s._M0 n)
    (hW : ∀ dst n, _make_pollee dst s._W0 m1 n = _make_pollee dst s._W0 s._M1 n) :
    make_snapshot (with_masks s m0 m1) = with_masks (make_snapshot s) m0 m1 := by
  by_cases hc : s._cap1 < s._cap0
  · simp only [make_snapshot, with_masks, hc, if_true, hR, hW]
  · simp only [make_snapshot, with_masks, hc, if_false, hR, hW]

theorem select_freeze_unregistered (s : Select) (e : Event) (h : Inv s)
    (hn : persistent s e.type e.descriptor = false) (hle : (e.descriptor : Int) ≤ s._max_fd)
    (sys : List SelectOutcome) :
    _select (_freeze s e) sys =
      (_select s sys).map
        (fun r => { r with state := with_masks r.state (_freeze s e)._M0 (_freeze s e)._M1 }) := by
  rw [freeze_eq_of_le s e hle]
  obtain ⟨addr, d, t⟩ := e
  cases t with
  | NONE =>
    exact select_with_masks s s._M0 s._M1 sys
      (make_snapshot_with_masks s _ _ (fun _ _ => rfl) (fun _ _ => rfl))
  | READ =>
    exact select_with_masks s _ _ sys
      (make_snapshot_with_masks s _ _
        (fun dst n => make_pollee_FD_CLR dst s._R0 s._M0 n d h.byteM0 hn) (fun _ _ => rfl))
  | WRITE =>
    exact select_with_masks s _ _ sys
      (make_snapshot_with_masks s _ _ (fun _ _ => rfl)
        (fun dst n => make_pollee_FD_CLR dst s._W0 s._M1 n d h.byteM1 hn))

/-! ## Frozen pairs -/

theorem select_observations (s : Select) (sys : List SelectOutcome) (r : PollResult)
    (h : Inv s) (hr : _select s sys = some r) :
    r.state._max_fd = s._max_fd ∧ r.state._handler = s._handler ∧
      ∀ dir fd, persistent r.state dir fd = persistent s dir fd ∧
        active r.state dir fd = active s dir fd ∧ slot r.state dir fd = slot s dir fd := by
  obtain ⟨a, b, c, hs, -, -, -⟩ := select_state_eq s sys r h hr
  rw [hs]
  refine ⟨rfl, rfl, ?_⟩
  intro dir fd
  cases dir <;> exact ⟨rfl, rfl, rfl⟩

theorem Frozen.bits {d : Nat} {dir : EventType} {s : Select} (h : Frozen d dir s) :
    Reachable s ∧ persistent s dir d = true ∧ active s dir d = false := by
  induction h with
  | freeze s e hs hp hd ht =>
    refine ⟨Reachable.op s (Op.freeze e) hs, ?_, ?_⟩
    · rw [persistent_freeze s e hs.inv]
      exact hp
    · rw [active_freeze, hd, ht]
      simp
  | other s o _ hne ih =>
    obtain ⟨hs, hp, ha⟩ := ih
    have hi := hs.inv
    have hlt : d < s._cap0 * 8 := by
      have h1 := persistent_le_max_fd s hi dir d hp
      have h2 := hi.max_lt
      omega
    have hne2 : ∀ e : Event, ¬ (e.descriptor = d ∧ e.type = dir) →
        (decide (dir = e.type) && decide (d = e.descriptor)) = false := by
      intro e he
      simp only [Bool.and_eq_false_iff, decide_eq_false_iff_not]
      by_cases hd : dir = e.type
      · exact Or.inr (fun hf => he ⟨hf.symm, hd.symm⟩)
      · exact Or.inl hd
    refine ⟨Reachable.op s o hs, ?_, ?_⟩
    · cases o with
      | insert e =>
        simp only [Op.apply]
        rw [persistent_insert s e hi, hp]
        rfl
      | remove e =>
        simp only [Op.apply]
        rw [persistent_remove s e hi, hp, hne2 e hne]
        rfl
      | freeze e =>
        simp only [Op.apply]
        rw [persistent_freeze s e hi, hp]
      | thaw e =>
        simp only [Op.apply]
        rw [persistent_thaw s e hi, hp]
    · cases o with
      | insert e =>
        simp only [Op.apply]
        rw [active_insert s e hi, active_recap s _ hi dir d hlt, ha, hne2 e hne]
        rfl
      | remove e =>
        simp only [Op.apply]
        rw [active_remove, active_recap s _ hi dir d hlt, ha]
        rfl
      | freeze e =>
        simp only [Op.apply]
        rw [active_freeze, active_recap s _ hi dir d hlt, ha]
        rfl
      | thaw e =>
        simp only [Op.apply]
        rw [active_thaw s e hi, active_recap s _ hi dir d hlt, ha, hne2 e hne]
        rfl
  | again s e _ ih =>
    obtain ⟨hs, hp, ha⟩ := ih
    have hi := hs.inv
    have hlt : d < s._cap0 * 8 := by
      have h1 := persistent_le_max_fd s hi dir d hp
      have h2 := hi.max_lt
      omega
    refine ⟨Reachable.op s (Op.freeze e) hs, ?_, ?_⟩
    · rw [persistent_freeze s e hi, hp]
    · rw [active_freeze, active_recap s _ hi dir d hlt, ha]
      rfl
  | poll s sys r _ hr ih =>
    obtain ⟨hs, hp, ha⟩ := ih
    obtain ⟨-, -, ho⟩ := select_observations s sys r hs.inv hr
    refine ⟨Reachable.poll s sys r hs hr, ?_, ?_⟩
    · rw [(ho dir d).1, hp]
    · rw [(ho dir d).2.1, ha]

theorem not_mem_trace_of_not_working (s : Select) (sys : List SelectOutcome) (r : PollResult)
    (h : Inv s) (hr : _select s sys = some r) (d : Nat) (dir : EventType) (ev : Event)
    (hs : slot s dir d = some ev) (hw : working (make_snapshot s) dir d = false)
    (hsys : ∀ o ∈ sys, reports_within (make_snapshot s) o) : ev ∉ r.trace := by
  rcases select_cases s sys r hr with ⟨-, hr1⟩ | ⟨-, s1, err, n, hi, hr1⟩
  · rw [hr1]
    simp
  · rw [hr1]
    dsimp only
    split
    · rename_i hc
      obtain ⟨he, -⟩ := hc
      subst he
      obtain ⟨rd, wr, ex, hmem, hs1⟩ := issue_select_ok _ _ _ _ hi
      have hrep := hsys _ hmem
      obtain ⟨-, -, hsl, -⟩ := issue_select_frame _ _ _ hi
      dsimp only at hsl
      rw [dispatch_loop_eq]
      simp only [List.nil_append, List.mem_flatMap, List.mem_reverse, List.mem_range,
        mem_dispatch_at, not_exists, not_and]
      intro fd _ hcase
      have key : ∀ dir', working s1 dir' fd = true → slot s1 dir' fd = some ev → False := by
        intro dir' hwk hslot
        rw [hsl, slot_make_snapshot] at hslot
        have e1 := slot_event s h dir' fd ev hslot
        have e2 := slot_event s h dir d ev hs
        have hfd : fd = d := e1.1.symm.trans e2.1
        have hdir : dir' = dir := e1.2.symm.trans e2.2
        subst hfd hdir
        rw [hs1] at hwk
        cases dir' with
        | NONE => exact Bool.noConfusion hwk
        | READ =>
          have := (hrep fd).1 hwk
          simp only [working] at hw
          rw [hw] at this
          exact Bool.noConfusion this
        | WRITE =>
          have := (hrep fd).2 hwk
          simp only [working] at hw
          rw [hw] at this
          exact Bool.noConfusion this
      rcases hcase with ⟨h1, h2⟩ | ⟨h1, h2⟩
      · exact key _ h1 h2
      · exact key _ h1 h2
    · simp

/-! ## The standalone probe -/

theorem FD_ISSET_FD_SET_FD_ZERO (fd : Nat) (h : fd < FD_SETSIZE) :
    FD_ISSET fd (FD_SET fd FD_ZERO) = true := by
  rw [FD_ISSET_FD_SET]
  have : fd / 8 < FD_ZERO.length := by
    simp only [FD_ZERO, FD_SETSIZE, List.length_replicate] at h ⊢
    omega
  simp [this]

theorem select_on_write_of_failure (fd : Nat) (timeout : Int) (N errno : Nat)
    (rest : List SelectOutcome) (h : fd < FD_SETSIZE) (he : errno ≠ EINTR) :
    select_on_write fd timeout
        (List.replicate N (SelectOutcome.fail EINTR) ++ SelectOutcome.fail errno :: rest) =
      some (true, errno) := by
  induction N with
  | zero =>
    simp only [List.replicate_zero, List.nil_append, select_on_write, if_neg he,
      FD_ISSET_FD_SET_FD_ZERO fd h]
  | succ n ih =>
    rw [List.replicate_succ, List.cons_append, select_on_write, if_pos rfl, ih]

/-! ## Capacity is a power-of-two multiple of the storage unit -/

theorem grow_cap_pow (fuel c t : Nat) : ∃ j, grow_cap fuel c t = c * 2 ^ j := by
  induction fuel generalizing c with
  | zero => exact ⟨0, by simp [grow_cap]⟩
  | succ f ih =>
    unfold grow_cap
    split
    · obtain ⟨j, hj⟩ := ih (c * 2)
      exact ⟨j + 1, by rw [hj, pow_succ]; ring⟩
    · exact ⟨0, by simp⟩

theorem recap_cap0_pow (s : Select) (fd : Nat)
    (h : s._cap0 = 0 ∨ ∃ k, s._cap0 = sizeof_fd_mask * 2 ^ k) :
    (_recap s fd)._cap0 = 0 ∨ ∃ k, (_recap s fd)._cap0 = sizeof_fd_mask * 2 ^ k := by
  unfold _recap
  by_cases h1 : s._max_fd ≥ (fd : Int)
  · rw [if_pos h1]
    exact h
  · rw [if_neg h1]
    dsimp only
    by_cases h2 : s._cap0 ≥ num_masks (fd + 1) * sizeof_fd_mask
    · rw [if_pos h2]
      exact h
    · rw [if_neg h2]
      dsimp only
      right
      obtain ⟨j, hj⟩ := grow_cap_pow (num_masks (fd + 1) * sizeof_fd_mask)
        (if s._cap0 = 0 then sizeof_fd_mask else s._cap0) (num_masks (fd + 1) * sizeof_fd_mask)
      rw [hj]
      by_cases h0 : s._cap0 = 0
      · rw [if_pos h0]
        exact ⟨j, rfl⟩
      · rw [if_neg h0]
        rcases h with h | ⟨k, hk⟩
        · exact absurd h h0
        · exact ⟨k + j, by rw [hk, pow_add]; ring⟩

theorem apply_cap0 (s : Select) (o : Op) :
    (o.apply s)._cap0 = (_recap s o.event.descriptor)._cap0 := by
  cases o with
  | insert e =>
    simp only [Op.apply, Op.event, _insert]
    cases e.type <;> rfl
  | remove e => exact remove_cap0_eq s e
  | freeze e =>
    simp only [Op.apply, Op.event, _freeze]
    cases e.type <;> rfl
  | thaw e =>
    simp only [Op.apply, Op.event, _thaw]
    cases e.type <;> rfl

theorem Reachable.cap_pow {s : Select} (h : Reachable s) :
    s._cap0 = 0 ∨ ∃ k, s._cap0 = sizeof_fd_mask * 2 ^ k := by
  induction h with
  | empty handler => exact Or.inl rfl
  | op s o _ ih =>
    rw [apply_cap0]
    exact recap_cap0_pow s _ ih
  | poll s sys r hs hr ih =>
    obtain ⟨a, b, c, hst, -, -, -⟩ := select_state_eq s sys r hs.inv hr
    rw [hst]
    exact ih

theorem insert_max_fd (s : Select) (e : Event) (h : Inv s) :
    (_insert s e)._max_fd = max s._max_fd (e.descriptor : Int) := by
  obtain ⟨k, hk, -, -⟩ := recap_eq_grown s h e.descriptor
  unfold _insert
  rw [hk]
  cases e.type <;> rfl

theorem insert_cap0_pos (s : Select) (e : Event) (h : Inv s) : 0 < (_insert s e)._cap0 := by
  have h1 : (_insert s e)._cap0 = (_recap s e.descriptor)._cap0 := apply_cap0 s (Op.insert e)
  obtain ⟨k, hk, hlt, -⟩ := recap_eq_grown s h e.descriptor
  rw [h1, hk]
  simp only [grown]
  omega

theorem run_insert_max_fd_lt (es : List Event) (s : Select) (b : Nat) (h : Reachable s)
    (hs : s._max_fd < (b : Int)) (hes : ∀ e ∈ es, e.descriptor < b) :
    (run s (es.map Op.insert))._max_fd < (b : Int) := by
  induction es generalizing s with
  | nil => exact hs
  | cons e es ih =>
    simp only [List.map_cons, run, List.foldl_cons]
    apply ih (Op.apply s (Op.insert e)) (Reachable.op s _ h)
    · simp only [Op.apply]
      rw [insert_max_fd s e h.inv]
      have := hes e (List.mem_cons_self _ _)
      omega
    · intro e' he'
      exact hes e' (List.mem_cons_of_mem _ he')

/-! ## Outcomes of the poll cycle -/

theorem make_snapshot_frame (s : Select) :
    ∃ a b c, make_snapshot s = { s with _R1 := a, _W1 := b, _cap1 := c } := by
  unfold make_snapshot
  by_cases hc : s._cap1 < s._cap0
  · simp only [hc, if_true]
    exact ⟨_, _, _, rfl⟩
  · simp only [hc, if_false]
    exact ⟨_, _, _, rfl⟩

theorem select_frame (s : Select) (sys : List SelectOutcome) (r : PollResult)
    (hr : _select s sys = some r) :
    ∃ a b c, r.state = { s with _R1 := a, _W1 := b, _cap1 := c } := by
  rcases select_cases s sys r hr with ⟨-, h⟩ | ⟨-, s1, err, n, hi, h⟩
  · rw [h]
    exact ⟨_, _, _, rfl⟩
  · obtain ⟨a, b, c, hm⟩ := make_snapshot_frame s
    obtain ⟨a', b', hq, -, -⟩ := issue_select_eq _ _ _ hi
    rw [h]
    dsimp only at hq ⊢
    rw [hq, hm]
    exact ⟨_, _, _, rfl⟩

theorem issue_select_retry_fail (s : Select) (N errno : Nat) (rest : List SelectOutcome)
    (he : errno ≠ EINTR) :
    issue_select s (List.replicate N (SelectOutcome.fail EINTR) ++ SelectOutcome.fail errno :: rest)
      = some (s, some errno, N + 1) := by
  induction N with
  | zero => simp [issue_select, he]
  | succ n ih =>
    rw [List.replicate_succ, List.cons_append, issue_select, if_pos rfl, ih]
    rfl

theorem select_retry_fail (s : Select) (N errno : Nat) (rest : List SelectOutcome)
    (he : errno ≠ EINTR) (hm : s._max_fd ≠ -1) :
    _select s (List.replicate N (SelectOutcome.fail EINTR) ++ SelectOutcome.fail errno :: rest)
      = some { state := make_snapshot s, trace := [], error := some errno, calls := N + 1 } := by
  unfold _select
  rw [if_neg hm]
  dsimp only
  rw [issue_select_retry_fail _ _ _ _ he]

theorem select_retry_ok (s : Select) (N : Nat) (rd wr ex : List Nat) (rest : List SelectOutcome)
    (hm : s._max_fd ≠ -1) :
    _select s (List.replicate N (SelectOutcome.fail EINTR) ++ SelectOutcome.ok rd wr ex :: rest)
      = some
        { state := { make_snapshot s with
            _R1 := write_back rd (make_snapshot s)._R1,
            _W1 := write_back wr (make_snapshot s)._W1 },
          trace := if s._handler = true then
            dispatch_loop { make_snapshot s with
              _R1 := write_back rd (make_snapshot s)._R1,
              _W1 := write_back wr (make_snapshot s)._W1 } (s._max_fd + 1).toNat []
            else [],
          error := none, calls := N + 1 } := by
  unfold _select
  rw [if_neg hm]
  dsimp only
  rw [issue_select_retry]
  dsimp only
  rw [handler_make_snapshot]
  by_cases hh : s._handler = true
  · rw [if_pos hh, if_pos hh]
  · rw [if_neg hh, if_neg hh]

theorem select_of_none (s : Select) (sys : List SelectOutcome) (hm : s._max_fd = -1) :
    _select s sys = some { state := s, trace := [], error := none, calls := 0 } := by
  unfold _select
  rw [if_pos hm]

/-! ## Accesses stay inside the storage -/

theorem in_storage_of_lt (s : Select) (h : Inv s) (fd : Nat) (hfd : fd < s._cap0 * 8) :
    in_storage s fd := by
  unfold in_storage
  rw [h.lenR, h.lenW, h.lenM0, h.lenM1, h.lenE0, h.lenE1]
  omega

theorem remove_lengths (s : Select) (e : Event) :
    (_remove s e)._R0.length = (_recap s e.descriptor)._R0.length ∧
      (_remove s e)._W0.length = (_recap s e.descriptor)._W0.length := by
  unfold _remove
  cases e.type <;> simp

theorem make_snapshot_lengths (s : Select) (h : Inv s) :
    (make_snapshot s)._R1.length = (make_snapshot s)._cap1 ∧
      (make_snapshot s)._W1.length = (make_snapshot s)._cap1 ∧
      s._cap0 ≤ (make_snapshot s)._cap1 := by
  unfold make_snapshot
  by_cases hc : s._cap1 < s._cap0
  · simp [hc, length_make_pollee, length_realloc]
  · simp only [hc, if_false, length_make_pollee]
    exact ⟨h.lenR1, h.lenW1, by omega⟩

theorem getD_write_back (res buf : List Nat) (i : Nat) :
    (write_back res buf).getD i 0 =
      if i < res.length ∧ i < buf.length then res.getD i 0 else buf.getD i 0 := by
  induction res generalizing buf i with
  | nil => simp [write_back]
  | cons r res ih =>
    cases buf with
    | nil => simp [write_back]
    | cons b buf =>
      cases i with
      | zero => simp [write_back]
      | succ i =>
        have := ih buf i
        simp only [write_back, List.getD_cons_succ, List.length_cons,
          Nat.add_lt_add_iff_right] at this ⊢
        exact this

theorem FD_ISSET_write_back (fd : Nat) (res buf : List Nat) (h1 : fd / 8 < res.length)
    (h2 : fd / 8 < buf.length) : FD_ISSET fd (write_back res buf) = FD_ISSET fd res := by
  rw [FD_ISSET_eq, FD_ISSET_eq, getD_write_back, if_pos ⟨h1, h2⟩]

theorem select_on_write_of_success (fd : Nat) (timeout : Int) (N : Nat) (rd wr ex : List Nat)
    (rest : List SelectOutcome) :
    select_on_write fd timeout
        (List.replicate N (SelectOutcome.fail EINTR) ++ SelectOutcome.ok rd wr ex :: rest) =
      some (FD_ISSET fd (write_back wr (FD_SET fd FD_ZERO)), 0) := by
  induction N with
  | zero => simp only [List.replicate_zero, List.nil_append, select_on_write]
  | succ n ih =>
    rw [List.replicate_succ, List.cons_append, select_on_write, if_pos rfl, ih]

/-! ## Theorems -/

/-- C1 (the code departs from the claim): when the system call of the probe
fails with `EBADF` on descriptor 5, `select_on_write` returns `true`, not
`false`: the bit it set in `write_fds` before the call is still there. The
error output holds the error code. (`select_on_write_of_failure` shows the same
for every descriptor of the `fd_set` range and every error but `EINTR`.) -/
theorem select_on_write_failure_returns_true :
    select_on_write 5 1 [SelectOutcome.fail EBADF] = some (true, EBADF) := by
  decide

/-- C2 (the code departs from the claim): `freeze` of an event with descriptor
5 on the empty demultiplexer leaves `_max_fd = 5` although no persistent READ
or WRITE bit is set. -/
theorem freeze_unregistered_raises_max_fd :
    (run (Select.empty true) [Op.freeze ⟨1, 5, EventType.READ⟩])._max_fd = 5 ∧
      (run (Select.empty true) [Op.freeze ⟨1, 5, EventType.READ⟩])._R0 = List.replicate 8 0 ∧
      (run (Select.empty true) [Op.freeze ⟨1, 5, EventType.READ⟩])._W0 = List.replicate 8 0 ∧
      ¬ max_fd_is_largest (run (Select.empty true) [Op.freeze ⟨1, 5, EventType.READ⟩]) := by
  refine ⟨by decide, by decide, by decide, ?_⟩
  rintro ⟨-, h | ⟨-, h⟩⟩
  · exact absurd h (by decide)
  · exact absurd h (by decide)

/-- C3 (as stated, false): the active bit of another pair can change. On the
empty demultiplexer the READ pair of descriptor 0 has no active bit set, and
after `insert` of a READ event on descriptor 1 it is set: the insert allocates
the storage of the pair, and new storage comes with that bit active. Likewise,
with READ registered on descriptor 3 (capacity 8 bytes), `insert` of a WRITE
event on descriptor 70 grows the storage to 16 bytes and the WRITE active bit
of descriptor 72 goes from unset to set. -/
theorem insert_changes_active_bit_in_new_storage :
    (Reachable (Select.empty true) ∧
      active (Select.empty true) EventType.READ 0 = false ∧
      active (_insert (Select.empty true) ⟨1, 1, EventType.READ⟩) EventType.READ 0 = true) ∧
      (Reachable (run (Select.empty true) [Op.insert ⟨1, 3, EventType.READ⟩]) ∧
        (run (Select.empty true) [Op.insert ⟨1, 3, EventType.READ⟩])._cap0 = 8 ∧
        active (run (Select.empty true) [Op.insert ⟨1, 3, EventType.READ⟩]) EventType.WRITE 72
          = false ∧
        active (_insert (run (Select.empty true) [Op.insert ⟨1, 3, EventType.READ⟩])
          ⟨2, 70, EventType.WRITE⟩) EventType.WRITE 72 = true) :=
  ⟨⟨Reachable.empty true, by decide, by decide⟩,
    ⟨(Reachable.empty true).run _, by decide, by decide, by decide⟩⟩

/-- C3 (amended): in a reachable state, `insert(e)` of a READ or WRITE event
sets the persistent bit and the active-mask bit of the pair of `e` (frozen
before or not) and stores `e` in its reference-map slot (replacing what was
there); the persistent bit and the slot of every other pair are unchanged, and
so is the active bit of every other pair whose descriptor lies in the storage
allocated before the call (below `8 * _cap[0]`). -/
theorem insert_sets_pair (s : Select) (e : Event) (h : Reachable s)
    (ht : e.type = EventType.READ ∨ e.type = EventType.WRITE) :
    persistent (_insert s e) e.type e.descriptor = true ∧
      active (_insert s e) e.type e.descriptor = true ∧
      slot (_insert s e) e.type e.descriptor = some e ∧
      ∀ dir fd, ¬ (fd = e.descriptor ∧ dir = e.type) →
        persistent (_insert s e) dir fd = persistent s dir fd ∧
        slot (_insert s e) dir fd = slot s dir fd ∧
        (fd < s._cap0 * 8 → active (_insert s e) dir fd = active s dir fd) := by
  have hi := h.inv
  have hne : e.type ≠ EventType.NONE := by
    rcases ht with ht | ht <;> rw [ht] <;> decide
  refine ⟨?_, ?_, ?_, ?_⟩
  · rw [persistent_insert s e hi]
    simp [hne]
  · rw [active_insert s e hi]
    simp [hne]
  · rw [slot_insert s e hi]
    simp [hne]
  · intro dir fd hp
    have hp2 : (decide (dir = e.type) && decide (fd = e.descriptor)) = false := by
      simp only [Bool.and_eq_false_iff, decide_eq_false_iff_not]
      by_cases hd : dir = e.type
      · exact Or.inr (fun hf => hp ⟨hf, hd⟩)
      · exact Or.inl hd
    refine ⟨?_, ?_, ?_⟩
    · rw [persistent_insert s e hi, hp2]
      simp
    · rw [slot_insert s e hi, if_neg]
      rintro ⟨h1, h2, -⟩
      exact hp ⟨h2, h1⟩
    · intro hfd
      rw [active_insert s e hi, hp2, active_recap s e.descriptor hi dir fd hfd]
      simp

/-- Witness of C3 (amended): the empty demultiplexer and a READ event on
descriptor 3. -/
theorem insert_sets_pair_witness :
    Reachable (Select.empty true) ∧
      slot (_insert (Select.empty true) ⟨1, 3, EventType.READ⟩) EventType.READ 3 =
        some ⟨1, 3, EventType.READ⟩ :=
  ⟨Reachable.empty true,
    (insert_sets_pair (Select.empty true) ⟨1, 3, EventType.READ⟩ (Reachable.empty true)
      (Or.inl rfl)).2.2.1⟩

/-- C4 (as stated, false): after `insert` of a READ event on descriptor 1 the
READ pair of descriptor 0 is not registered and its active bit is set (storage
is allocated with the bit active); `insert` followed by `remove` on descriptor
0 leaves that active bit cleared, which is not its pre-insert value. -/
theorem insert_remove_active_bit_not_restored :
    Reachable (run (Select.empty true) [Op.insert ⟨1, 1, EventType.READ⟩]) ∧
      persistent (run (Select.empty true) [Op.insert ⟨1, 1, EventType.READ⟩]) EventType.READ 0
        = false ∧
      active (run (Select.empty true) [Op.insert ⟨1, 1, EventType.READ⟩]) EventType.READ 0
        = true ∧
      active (_remove (_insert (run (Select.empty true) [Op.insert ⟨1, 1, EventType.READ⟩])
        ⟨2, 0, EventType.READ⟩) ⟨2, 0, EventType.READ⟩) EventType.READ 0 = false :=
  ⟨(Reachable.empty true).run _, by decide, by decide, by decide⟩

/-- C4 (amended): in a reachable state in which the pair of the event `e` is
not registered, `insert(e)` followed by `remove(e)` leaves the
persistent bit of the pair cleared and its slot empty, which are their
pre-insert values, leaves the active bit of the pair cleared (whatever it was
before the insert), and leaves the persistent bit and the slot of every other
pair as they were before the insert. -/
theorem insert_remove_restores (s : Select) (e : Event) (h : Reachable s)
    (hn : persistent s e.type e.descriptor = false) :
    persistent (_remove (_insert s e) e) e.type e.descriptor = false ∧
      persistent (_remove (_insert s e) e) e.type e.descriptor =
        persistent s e.type e.descriptor ∧
      slot (_remove (_insert s e) e) e.type e.descriptor = none ∧
      slot (_remove (_insert s e) e) e.type e.descriptor = slot s e.type e.descriptor ∧
      active (_remove (_insert s e) e) e.type e.descriptor = false ∧
      ∀ dir fd, ¬ (fd = e.descriptor ∧ dir = e.type) →
        persistent (_remove (_insert s e) e) dir fd = persistent s dir fd ∧
        slot (_remove (_insert s e) e) dir fd = slot s dir fd := by
  have hi := h.inv
  have hi2 := Inv_insert s e hi
  have hs0 : slot s e.type e.descriptor = none := by
    have := slot_isSome s hi e.type e.descriptor
    rw [hn] at this
    simpa using this
  have hp : persistent (_remove (_insert s e) e) e.type e.descriptor = false := by
    rw [persistent_remove _ e hi2]
    simp
  have hsl : slot (_remove (_insert s e) e) e.type e.descriptor = none := by
    rw [slot_remove _ e hi2]
    simp
  refine ⟨hp, by rw [hp, hn], hsl, by rw [hsl, hs0], ?_, ?_⟩
  · rw [active_remove]
    simp
  · intro dir fd hpair
    have hp2 : (decide (dir = e.type) && decide (fd = e.descriptor)) = false := by
      simp only [Bool.and_eq_false_iff, decide_eq_false_iff_not]
      by_cases hd : dir = e.type
      · exact Or.inr (fun hf => hpair ⟨hf, hd⟩)
      · exact Or.inl hd
    constructor
    · rw [persistent_remove _ e hi2, persistent_insert s e hi, hp2]
      simp
    · rw [slot_remove _ e hi2, if_neg (fun hc => hpair ⟨hc.2, hc.1⟩), slot_insert s e hi, if_neg]
      rintro ⟨h1, h2, -⟩
      exact hpair ⟨h2, h1⟩

/-- Witness of C4 (amended): the empty demultiplexer and a WRITE event on
descriptor 2. -/
theorem insert_remove_restores_witness :
    Reachable (Select.empty false) ∧
      persistent (Select.empty false) EventType.WRITE 2 = false ∧
      active (_remove (_insert (Select.empty false) ⟨7, 2, EventType.WRITE⟩)
        ⟨7, 2, EventType.WRITE⟩) EventType.WRITE 2 = false :=
  ⟨Reachable.empty false, rfl,
    (insert_remove_restores (Select.empty false) ⟨7, 2, EventType.WRITE⟩ (Reachable.empty false)
      rfl).2.2.2.2.1⟩

/-- C5: in a reachable state, right after `remove(e)` the value of `_max_fd` is
the largest descriptor whose persistent READ or WRITE bit is still set, or `-1`
if none is; the capacity `_cap[0]` is not reduced; and inserting descriptors 3,
7, 5, then removing 7 and 5 leaves `_max_fd = 3`, removing 3 afterwards leaves
`_max_fd = -1`. -/
theorem remove_max_fd_largest (s : Select) (e : Event) (h : Reachable s) :
    max_fd_is_largest (_remove s e) ∧ s._cap0 ≤ (_remove s e)._cap0 ∧
      (run (Select.empty true)
        [Op.insert ⟨1, 3, EventType.READ⟩, Op.insert ⟨2, 7, EventType.WRITE⟩,
          Op.insert ⟨3, 5, EventType.READ⟩, Op.remove ⟨2, 7, EventType.WRITE⟩,
          Op.remove ⟨3, 5, EventType.READ⟩])._max_fd = 3 ∧
      (run (Select.empty true)
        [Op.insert ⟨1, 3, EventType.READ⟩, Op.insert ⟨2, 7, EventType.WRITE⟩,
          Op.insert ⟨3, 5, EventType.READ⟩, Op.remove ⟨2, 7, EventType.WRITE⟩,
          Op.remove ⟨3, 5, EventType.READ⟩, Op.remove ⟨1, 3, EventType.READ⟩])._max_fd = -1 := by
  have hi := h.inv
  have hr := Inv_remove s e hi
  refine ⟨⟨?_, ?_⟩, ?_, by decide, by decide⟩
  · intro fd hfd
    simp only [registered, Bool.or_eq_true] at hfd
    rcases hfd with hfd | hfd
    · exact hr.bitsR fd hfd
    · exact hr.bitsW fd hfd
  · by_cases hm : (_remove s e)._max_fd = -1
    · exact Or.inl hm
    · right
      have hge := hr.max_ge
      have h0 : 0 ≤ (_remove s e)._max_fd := by omega
      refine ⟨h0, ?_⟩
      have ht := shrink_max_fd_tight (_remove s e)._R0 (_remove s e)._W0
        ((_recap s e.descriptor)._max_fd + 1).toNat
      rw [← remove_max_fd_eq] at ht
      simpa [registered, persistent] using ht h0
  · rw [remove_cap0_eq]
    exact le_cap0_recap s e.descriptor hi

/-- Witness of C5: removing the only registration. -/
theorem remove_max_fd_largest_witness :
    Reachable (run (Select.empty true) [Op.insert ⟨1, 3, EventType.READ⟩]) ∧
      max_fd_is_largest
        (_remove (run (Select.empty true) [Op.insert ⟨1, 3, EventType.READ⟩])
          ⟨1, 3, EventType.READ⟩) :=
  ⟨(Reachable.empty true).run _,
    (remove_max_fd_largest _ ⟨1, 3, EventType.READ⟩ ((Reachable.empty true).run _)).1⟩

/-- C6 (as stated, false): the READ pair of descriptor 3 is registered and
already frozen; `freeze` followed by `thaw` leaves its active bit set, so the
READ active mask is not what it was before the freeze. -/
theorem freeze_thaw_of_frozen_changes_mask :
    Reachable (run (Select.empty true)
        [Op.insert ⟨1, 3, EventType.READ⟩, Op.freeze ⟨1, 3, EventType.READ⟩]) ∧
      persistent (run (Select.empty true)
        [Op.insert ⟨1, 3, EventType.READ⟩, Op.freeze ⟨1, 3, EventType.READ⟩]) EventType.READ 3
        = true ∧
      (_thaw (_freeze (run (Select.empty true)
        [Op.insert ⟨1, 3, EventType.READ⟩, Op.freeze ⟨1, 3, EventType.READ⟩])
        ⟨1, 3, EventType.READ⟩) ⟨1, 3, EventType.READ⟩)._M0 ≠
      (run (Select.empty true)
        [Op.insert ⟨1, 3, EventType.READ⟩, Op.freeze ⟨1, 3, EventType.READ⟩])._M0 :=
  ⟨(Reachable.empty true).run _, by decide, by decide⟩

/-- C6 (amended): in a reachable state in which the pair of `e` is registered,
neither `freeze(e)` nor the following `thaw(e)` changes anything but the active
masks (persistent bits, reference-map slots and `_max_fd` stay as they are),
and when the pair is active (not frozen) before the freeze, `freeze(e)`
followed by `thaw(e)` gives back the state before the freeze, both active masks
included. -/
theorem freeze_thaw_restores (s : Select) (e : Event) (h : Reachable s)
    (hp : persistent s e.type e.descriptor = true) :
    (∃ m0 m1, _freeze s e = with_masks s m0 m1) ∧
      (∃ m0 m1, _thaw (_freeze s e) e = with_masks (_freeze s e) m0 m1) ∧
      (active s e.type e.descriptor = true → _thaw (_freeze s e) e = s) := by
  have hi := h.inv
  have hle := persistent_le_max_fd s hi _ _ hp
  have hle2 : (e.descriptor : Int) ≤ (_freeze s e)._max_fd := by
    obtain ⟨m0, m1, hm⟩ := exists_with_masks_freeze s e hle
    rw [hm]
    exact hle
  refine ⟨exists_with_masks_freeze s e hle, exists_with_masks_thaw _ e hle2, ?_⟩
  intro ha
  rw [thaw_eq_of_le _ e hle2, freeze_eq_of_le s e hle]
  obtain ⟨addr, d, t⟩ := e
  cases t with
  | NONE => rfl
  | READ =>
    simp only [with_masks]
    rw [FD_SET_FD_CLR d s._M0 hi.byteM0 ha]
  | WRITE =>
    simp only [with_masks]
    rw [FD_SET_FD_CLR d s._M1 hi.byteM1 ha]

/-- Witness of C6 (amended): a registered, active READ pair on descriptor 3. -/
theorem freeze_thaw_restores_witness :
    Reachable (run (Select.empty true) [Op.insert ⟨1, 3, EventType.READ⟩]) ∧
      persistent (run (Select.empty true) [Op.insert ⟨1, 3, EventType.READ⟩]) EventType.READ 3
        = true ∧
      active (run (Select.empty true) [Op.insert ⟨1, 3, EventType.READ⟩]) EventType.READ 3
        = true ∧
      _thaw (_freeze (run (Select.empty true) [Op.insert ⟨1, 3, EventType.READ⟩])
        ⟨1, 3, EventType.READ⟩) ⟨1, 3, EventType.READ⟩ =
        run (Select.empty true) [Op.insert ⟨1, 3, EventType.READ⟩] :=
  ⟨(Reachable.empty true).run _, by decide, by decide,
    (freeze_thaw_restores (run (Select.empty true) [Op.insert ⟨1, 3, EventType.READ⟩])
      ⟨1, 3, EventType.READ⟩ ((Reachable.empty true).run _) (by decide)).2.2 (by decide)⟩

/-- C7 (as stated, false): (1) after `insert` of a READ event on descriptor 1,
the READ pair of descriptor 0 is not registered, and `freeze` on it changes the
READ active mask; (2) on the empty demultiplexer `freeze` of an unregistered
pair on descriptor 5 changes `_max_fd`, and the following poll issues a system
call where it issued none without the freeze. -/
theorem freeze_unregistered_not_noop :
    (persistent (run (Select.empty true) [Op.insert ⟨1, 1, EventType.READ⟩]) EventType.READ 0
        = false ∧
      (_freeze (run (Select.empty true) [Op.insert ⟨1, 1, EventType.READ⟩])
        ⟨2, 0, EventType.READ⟩)._M0 ≠
        (run (Select.empty true) [Op.insert ⟨1, 1, EventType.READ⟩])._M0) ∧
      (persistent (Select.empty true) EventType.READ 5 = false ∧
        (_freeze (Select.empty true) ⟨1, 5, EventType.READ⟩)._max_fd ≠
          (Select.empty true)._max_fd ∧
        (_select (Select.empty true) [SelectOutcome.ok [] [] []]).map PollResult.calls
          = some 0 ∧
        (_select (_freeze (Select.empty true) ⟨1, 5, EventType.READ⟩)
          [SelectOutcome.ok [] [] []]).map PollResult.calls = some 1) := by
  decide

/-- C7 (amended): in a reachable state, for an event `e` whose pair is not
registered and whose descriptor does not exceed `_max_fd`, `freeze(e)` changes
nothing but the active masks (persistent bitmasks, reference maps, `_max_fd`
and the capacities stay as they are), leaves the active bit of the pair of `e`
cleared and the active bit of every other pair as it was, and a following poll
cycle makes the same system calls and the same handler invocations, raises the
same error and computes the same working bitmasks as without the freeze. -/
theorem freeze_unregistered_frame (s : Select) (e : Event) (h : Reachable s)
    (hn : persistent s e.type e.descriptor = false)
    (hle : (e.descriptor : Int) ≤ s._max_fd) :
    (∃ m0 m1, _freeze s e = with_masks s m0 m1) ∧
      active (_freeze s e) e.type e.descriptor = false ∧
      (∀ dir fd, ¬ (fd = e.descriptor ∧ dir = e.type) →
        active (_freeze s e) dir fd = active s dir fd) ∧
      ∀ sys, _select (_freeze s e) sys =
        (_select s sys).map
          (fun r => { r with state := with_masks r.state (_freeze s e)._M0 (_freeze s e)._M1 }) := by
  refine ⟨exists_with_masks_freeze s e hle, ?_, ?_, select_freeze_unregistered s e h.inv hn hle⟩
  · rw [active_freeze]
    simp
  · intro dir fd hpair
    have hp2 : (decide (dir = e.type) && decide (fd = e.descriptor)) = false := by
      simp only [Bool.and_eq_false_iff, decide_eq_false_iff_not]
      by_cases hd : dir = e.type
      · exact Or.inr (fun hf => hpair ⟨hf, hd⟩)
      · exact Or.inl hd
    rw [active_freeze, hp2, recap_of_le s _ hle]
    simp

/-- Witness of C7 (amended): READ registered on descriptor 1, `freeze` of the
unregistered WRITE pair of descriptor 1. -/
theorem freeze_unregistered_frame_witness :
    Reachable (run (Select.empty true) [Op.insert ⟨1, 1, EventType.READ⟩]) ∧
      persistent (run (Select.empty true) [Op.insert ⟨1, 1, EventType.READ⟩]) EventType.WRITE 1
        = false ∧
      ((1 : Nat) : Int) ≤ (run (Select.empty true) [Op.insert ⟨1, 1, EventType.READ⟩])._max_fd ∧
      active (_freeze (run (Select.empty true) [Op.insert ⟨1, 1, EventType.READ⟩])
        ⟨2, 1, EventType.WRITE⟩) EventType.WRITE 1 = false :=
  ⟨(Reachable.empty true).run _, by decide, by decide,
    (freeze_unregistered_frame (run (Select.empty true) [Op.insert ⟨1, 1, EventType.READ⟩])
      ⟨2, 1, EventType.WRITE⟩ ((Reachable.empty true).run _) (by decide) (by decide)).2.1⟩

/-- C8: while the pair `(d, dir)` is registered and frozen, a poll cycle never
invokes the handler with the event `ev` registered for the pair, whatever
readiness the system call reports for the descriptors of the sets it was
handed; and after `thaw` of the pair, the working snapshot of the next poll
cycle has the bit of the pair set, and `ev` is dispatched by that cycle when
the system call reports the pair ready (the handler being set). -/
theorem frozen_excluded (s : Select) (d : Nat) (dir : EventType) (ev : Event)
    (hf : Frozen d dir s) (hs : slot s dir d = some ev) :
    (∀ sys r, (∀ o ∈ sys, reports_within (make_snapshot s) o) → _select s sys = some r →
        ev ∉ r.trace) ∧
      ∀ e : Event, e.descriptor = d → e.type = dir →
        working (make_snapshot (_thaw s e)) dir d = true ∧
        ∀ sys r, (_thaw s e)._handler = true → _select (_thaw s e) sys = some r →
          r.error = none → working r.state dir d = true → ev ∈ r.trace := by
  obtain ⟨hreach, hp, ha⟩ := hf.bits
  have hi := hreach.inv
  have hle := persistent_le_max_fd s hi dir d hp
  refine ⟨?_, ?_⟩
  · intro sys r hsys hr
    apply not_mem_trace_of_not_working s sys r hi hr d dir ev hs _ hsys
    rw [working_make_snapshot s hi dir d hle, ha]
    simp
  · intro e hd ht
    have hi2 := Inv_thaw s e hi
    have hp2 : persistent (_thaw s e) dir d = true := by
      rw [persistent_thaw s e hi, hp]
    have hne : dir ≠ EventType.NONE := by
      intro hc
      rw [hc] at hp
      exact Bool.noConfusion hp
    have ha2 : active (_thaw s e) dir d = true := by
      rw [active_thaw s e hi, hd, ht]
      simp [hne]
    have hle2 := persistent_le_max_fd _ hi2 dir d hp2
    refine ⟨?_, ?_⟩
    · rw [working_make_snapshot _ hi2 dir d hle2, hp2, ha2]
      rfl
    · intro sys r hh hr he hw
      rw [select_trace _ sys r hr he hh, mem_dispatch_order]
      obtain ⟨hm, -, ho⟩ := select_observations _ sys r hi2 hr
      refine ⟨dir, d, by rw [hm]; exact hle2, hw, ?_⟩
      rw [(ho dir d).2.2, slot_thaw s e hi, hs]

/-- Witness of C8: READ registered on descriptor 3 and then frozen; after
`thaw` the working snapshot has the bit of the pair. -/
theorem frozen_excluded_witness :
    Frozen 3 EventType.READ
        (_freeze (run (Select.empty true) [Op.insert ⟨1, 3, EventType.READ⟩])
          ⟨1, 3, EventType.READ⟩) ∧
      slot (_freeze (run (Select.empty true) [Op.insert ⟨1, 3, EventType.READ⟩])
          ⟨1, 3, EventType.READ⟩) EventType.READ 3 = some ⟨1, 3, EventType.READ⟩ ∧
      working (make_snapshot (_thaw
          (_freeze (run (Select.empty true) [Op.insert ⟨1, 3, EventType.READ⟩])
            ⟨1, 3, EventType.READ⟩) ⟨1, 3, EventType.READ⟩)) EventType.READ 3 = true :=
  ⟨Frozen.freeze _ _ ((Reachable.empty true).run _) (by decide) rfl rfl, by decide,
    ((frozen_excluded
      (_freeze (run (Select.empty true) [Op.insert ⟨1, 3, EventType.READ⟩])
        ⟨1, 3, EventType.READ⟩)
      3 EventType.READ ⟨1, 3, EventType.READ⟩
      (Frozen.freeze _ _ ((Reachable.empty true).run _) (by decide) rfl rfl) (by decide)).2
      ⟨1, 3, EventType.READ⟩ rfl rfl).1⟩

/-- C9: in a reachable state with the handler set, a poll cycle whose system
call succeeds (after any number of `EINTR` failures) returns without error, and
the sequence of its handler invocations is `dispatch_order`: for each
descriptor from `_max_fd` down to 0, the READ event if the READ working bit is
ready and a READ reference exists, then the WRITE event likewise; every ready
pair with a reference is dispatched exactly once.  With READ and WRITE
registered and ready on descriptors 1 and 4 the order is 4 READ, 4 WRITE,
1 READ, 1 WRITE. -/
theorem dispatch_sequence (s : Select) (N : Nat) (rd wr ex : List Nat)
    (rest : List SelectOutcome) (h : Reachable s) (hh : s._handler = true) :
    (∃ r, _select s
          (List.replicate N (SelectOutcome.fail EINTR) ++ SelectOutcome.ok rd wr ex :: rest)
          = some r ∧
        r.error = none ∧
        r.trace = dispatch_order r.state ∧
        ∀ (dir : EventType) (fd : Nat) (ev : Event), (fd : Int) ≤ r.state._max_fd →
          working r.state dir fd = true → slot r.state dir fd = some ev →
          r.trace.count ev = 1) ∧
      (_select
          (run (Select.empty true)
            [Op.insert ⟨11, 1, EventType.READ⟩, Op.insert ⟨12, 1, EventType.WRITE⟩,
              Op.insert ⟨41, 4, EventType.READ⟩, Op.insert ⟨42, 4, EventType.WRITE⟩])
          [SelectOutcome.ok [18] [18] []]).map PollResult.trace =
        some [⟨41, 4, EventType.READ⟩, ⟨42, 4, EventType.WRITE⟩,
          ⟨11, 1, EventType.READ⟩, ⟨12, 1, EventType.WRITE⟩] := by
  refine ⟨?_, by decide⟩
  obtain ⟨r, hr, he⟩ := select_retry s N rd wr ex rest
  have ht := select_trace s _ r hr he hh
  have hi := Inv_select s _ r h.inv hr
  refine ⟨r, hr, he, ht, ?_⟩
  intro dir fd ev hfd hw hs
  rw [ht]
  apply List.count_eq_one_of_mem (nodup_dispatch_order r.state hi)
  rw [mem_dispatch_order]
  exact ⟨dir, fd, hfd, hw, hs⟩

/-- Witness of C9: READ and WRITE registered on descriptor 1, both reported
ready at the first call. -/
theorem dispatch_sequence_witness :
    Reachable (run (Select.empty true)
        [Op.insert ⟨11, 1, EventType.READ⟩, Op.insert ⟨12, 1, EventType.WRITE⟩]) ∧
      ∃ r, _select (run (Select.empty true)
          [Op.insert ⟨11, 1, EventType.READ⟩, Op.insert ⟨12, 1, EventType.WRITE⟩])
          (List.replicate 0 (SelectOutcome.fail EINTR) ++ SelectOutcome.ok [2] [2] [] :: [])
          = some r ∧ r.error = none ∧ r.trace = dispatch_order r.state :=
  ⟨(Reachable.empty true).run _,
    (dispatch_sequence (run (Select.empty true)
        [Op.insert ⟨11, 1, EventType.READ⟩, Op.insert ⟨12, 1, EventType.WRITE⟩])
      0 [2] [2] [] [] ((Reachable.empty true).run _) (by decide)).1.imp
      (fun _ hr => ⟨hr.1, hr.2.1, hr.2.2.1⟩)⟩

/-- C10: in a reachable state with `_max_fd ≥ 0`, the `_max_fd / 8 + 1` bytes
that `_make_pollee` processes cover every descriptor up to `_max_fd`, each of
these bytes of a working bitmask is the bitwise AND of the bytes of the
persistent bitmask and of the active mask, and so the working bit of every
descriptor up to `_max_fd` is `persistent AND active`, in each direction. -/
theorem snapshot_is_and (s : Select) (h : Reachable s) (h0 : 0 ≤ s._max_fd) :
    (∀ (dir : EventType) (fd : Nat), (fd : Int) ≤ s._max_fd →
        fd / 8 < (s._max_fd / 8 + 1).toNat ∧
        working (make_snapshot s) dir fd = (persistent s dir fd && active s dir fd)) ∧
      ∀ i, i < (s._max_fd / 8 + 1).toNat →
        (make_snapshot s)._R1.getD i 0 = s._R0.getD i 0 &&& s._M0.getD i 0 ∧
        (make_snapshot s)._W1.getD i 0 = s._W0.getD i 0 &&& s._M1.getD i 0 := by
  refine ⟨fun dir fd hfd => ⟨by omega, working_make_snapshot s h.inv dir fd hfd⟩, ?_⟩
  intro i hi
  exact make_snapshot_bytes s h.inv h0 i hi

/-- Witness of C10: one READ registration on descriptor 9. -/
theorem snapshot_is_and_witness :
    Reachable (run (Select.empty true) [Op.insert ⟨1, 9, EventType.READ⟩]) ∧
      (0 : Int) ≤ (run (Select.empty true) [Op.insert ⟨1, 9, EventType.READ⟩])._max_fd ∧
      working (make_snapshot (run (Select.empty true) [Op.insert ⟨1, 9, EventType.READ⟩]))
        EventType.READ 9 =
        (persistent (run (Select.empty true) [Op.insert ⟨1, 9, EventType.READ⟩])
          EventType.READ 9 &&
        active (run (Select.empty true) [Op.insert ⟨1, 9, EventType.READ⟩]) EventType.READ 9) :=
  ⟨(Reachable.empty true).run _, by decide,
    ((snapshot_is_and (run (Select.empty true) [Op.insert ⟨1, 9, EventType.READ⟩])
      ((Reachable.empty true).run _) (by decide)).1 EventType.READ 9 (by decide)).2⟩

/-- C11: for a sequence of inserts with strictly increasing descriptors from
the empty demultiplexer, after each insert (of `e`, the events of `pre` having
been inserted before) the persistent capacity is `sizeof(fd_mask) * 2 ^ k` for
some `k`, is not smaller than before the insert, and every persistent bit and
reference-map entry that was set before the insert has the same value after
it. -/
theorem capacity_growth (handler : Bool) (pre : List Event) (e : Event)
    (hinc : ((pre ++ [e]).map Event.descriptor).Pairwise (· < ·)) :
    (∃ k, (_insert (run (Select.empty handler) (pre.map Op.insert)) e)._cap0 =
        sizeof_fd_mask * 2 ^ k) ∧
      (run (Select.empty handler) (pre.map Op.insert))._cap0 ≤
        (_insert (run (Select.empty handler) (pre.map Op.insert)) e)._cap0 ∧
      (∀ dir fd, persistent (run (Select.empty handler) (pre.map Op.insert)) dir fd = true →
        persistent (_insert (run (Select.empty handler) (pre.map Op.insert)) e) dir fd = true) ∧
      ∀ dir fd ev, slot (run (Select.empty handler) (pre.map Op.insert)) dir fd = some ev →
        slot (_insert (run (Select.empty handler) (pre.map Op.insert)) e) dir fd = some ev := by
  have hr : Reachable (run (Select.empty handler) (pre.map Op.insert)) :=
    (Reachable.empty handler).run _
  generalize hs : run (Select.empty handler) (pre.map Op.insert) = s at hr ⊢
  have hi := hr.inv
  have hlt : s._max_fd < (e.descriptor : Int) := by
    rw [← hs]
    apply run_insert_max_fd_lt pre _ _ (Reachable.empty handler)
    · simp only [Select.empty]
      omega
    · intro e' he'
      rw [List.map_append, List.pairwise_append] at hinc
      exact hinc.2.2 _ (List.mem_map_of_mem _ he') _ (by simp)
  refine ⟨?_, ?_, ?_, ?_⟩
  · rcases (Reachable.op s (Op.insert e) hr).cap_pow with h0 | hk
    · have := insert_cap0_pos s e hi
      simp only [Op.apply] at h0
      omega
    · exact hk
  · have h1 : (_insert s e)._cap0 = (_recap s e.descriptor)._cap0 := apply_cap0 s (Op.insert e)
    rw [h1]
    exact le_cap0_recap s _ hi
  · intro dir fd hp
    rw [persistent_insert s e hi, hp]
    rfl
  · intro dir fd ev hsl
    have hp : persistent s dir fd = true := by
      rw [← slot_isSome s hi, hsl]
      rfl
    have hle := persistent_le_max_fd s hi dir fd hp
    rw [slot_insert s e hi, if_neg, hsl]
    rintro ⟨-, hfd, -⟩
    omega

/-- Witness of C11: descriptor 3, then descriptor 70. -/
theorem capacity_growth_witness :
    (([(⟨1, 3, EventType.READ⟩ : Event)] ++ [(⟨2, 70, EventType.WRITE⟩ : Event)]).map
        Event.descriptor).Pairwise (· < ·) ∧
      (run (Select.empty true) ([(⟨1, 3, EventType.READ⟩ : Event)].map Op.insert))._cap0 ≤
        (_insert (run (Select.empty true) ([(⟨1, 3, EventType.READ⟩ : Event)].map Op.insert))
          ⟨2, 70, EventType.WRITE⟩)._cap0 :=
  ⟨by decide,
    (capacity_growth true [⟨1, 3, EventType.READ⟩] ⟨2, 70, EventType.WRITE⟩ (by decide)).2.1⟩

/-- C12 (the code departs from the claim): `_recap(9)` on the empty
demultiplexer grows the storage from 0 to 8 bytes and fills the new bytes of
both active masks with the value 1 (`memset(…, 1, …)`), so only bit 0 of each
new byte is set: the READ and WRITE active bits of descriptor 1 are 0, not 1.
The persistent bits of the new region are 0 and its slots are empty, as the
claim says. -/
theorem recap_new_region_not_all_active :
    (Select.empty true)._cap0 = 0 ∧ (_recap (Select.empty true) 9)._cap0 = 8 ∧
      (_recap (Select.empty true) 9)._M0 = [1, 1, 1, 1, 1, 1, 1, 1] ∧
      (_recap (Select.empty true) 9)._M1 = [1, 1, 1, 1, 1, 1, 1, 1] ∧
      active (_recap (Select.empty true) 9) EventType.READ 0 = true ∧
      active (_recap (Select.empty true) 9) EventType.READ 1 = false ∧
      active (_recap (Select.empty true) 9) EventType.WRITE 1 = false ∧
      (_recap (Select.empty true) 9)._R0 = List.replicate 8 0 ∧
      (_recap (Select.empty true) 9)._W0 = List.replicate 8 0 ∧
      (_recap (Select.empty true) 9)._fd2ev0 = List.replicate 64 none ∧
      (_recap (Select.empty true) 9)._fd2ev1 = List.replicate 64 none := by
  decide

/-- C13: in any state, a poll cycle in which the system call fails `N` times
with `EINTR` and then succeeds with a result returns, raises no error, and
makes the same sequence of handler invocations and ends in the same state as
the poll cycle in which the call succeeds with that result at once. -/
theorem retry_transparent (s : Select) (N : Nat) (rd wr ex : List Nat)
    (rest rest' : List SelectOutcome) :
    ∃ r r',
      _select s (List.replicate N (SelectOutcome.fail EINTR) ++ SelectOutcome.ok rd wr ex :: rest)
        = some r ∧
      _select s (SelectOutcome.ok rd wr ex :: rest') = some r' ∧
      r.error = none ∧ r'.error = none ∧ r.trace = r'.trace ∧ r.state = r'.state := by
  by_cases hm : s._max_fd = -1
  · exact ⟨_, _, select_of_none s _ hm, select_of_none s _ hm, rfl, rfl, rfl, rfl⟩
  · exact ⟨_, _, select_retry_ok s N rd wr ex rest hm, select_retry_ok s 0 rd wr ex rest' hm,
      rfl, rfl, rfl, rfl⟩

/-- C14: in a state with `_max_fd ≥ 0`, when the system call, after `N`
failures with `EINTR`, returns the outcome `o` (a success, or a failure with a
code other than `EINTR`), the poll cycle ends, and it raises an error if and
only if `o` is a failure; the error raised then carries the code of `o` and
the handler is not invoked. -/
theorem poll_error_iff (s : Select) (N : Nat) (o : SelectOutcome) (rest : List SelectOutcome)
    (h0 : 0 ≤ s._max_fd) (ho : o ≠ SelectOutcome.fail EINTR) :
    ∃ r, _select s (List.replicate N (SelectOutcome.fail EINTR) ++ o :: rest) = some r ∧
      ((∃ code, r.error = some code) ↔ ∃ errno, o = SelectOutcome.fail errno) ∧
      ∀ errno, o = SelectOutcome.fail errno → r.error = some errno ∧ r.trace = [] := by
  have hm : s._max_fd ≠ -1 := by omega
  cases o with
  | fail errno =>
    have he : errno ≠ EINTR := fun hc => ho (by rw [hc])
    refine ⟨_, select_retry_fail s N errno rest he hm, ?_, ?_⟩
    · exact ⟨fun _ => ⟨errno, rfl⟩, fun _ => ⟨errno, rfl⟩⟩
    · intro errno' hc
      cases hc
      exact ⟨rfl, rfl⟩
  | ok rd wr ex =>
    refine ⟨_, select_retry_ok s N rd wr ex rest hm, ?_, ?_⟩
    · constructor
      · rintro ⟨code, hc⟩
        exact absurd hc (by simp)
      · rintro ⟨errno, hc⟩
        cases hc
    · intro errno hc
      cases hc

/-- Witness of C14: READ registered on descriptor 3, the system call fails
with `EBADF` after one `EINTR`. -/
theorem poll_error_iff_witness :
    (0 : Int) ≤ (run (Select.empty true) [Op.insert ⟨1, 3, EventType.READ⟩])._max_fd ∧
      SelectOutcome.fail EBADF ≠ SelectOutcome.fail EINTR ∧
      ∃ r, _select (run (Select.empty true) [Op.insert ⟨1, 3, EventType.READ⟩])
          (List.replicate 1 (SelectOutcome.fail EINTR) ++ SelectOutcome.fail EBADF :: []) = some r ∧
        r.error = some EBADF ∧ r.trace = [] :=
  ⟨by decide, by decide,
    (poll_error_iff (run (Select.empty true) [Op.insert ⟨1, 3, EventType.READ⟩]) 1
      (SelectOutcome.fail EBADF) [] (by decide) (by decide)).imp
      (fun _ hr => ⟨hr.1, hr.2.2 EBADF rfl⟩)⟩

/-- C15: in any state, when the system call, after `N` failures with `EINTR`,
returns the outcome `o` (any success, whatever it writes over the sets it was
handed, or any failure with a code other than `EINTR`), the poll cycle ends in
a state whose persistent READ and WRITE bitmasks, active masks, reference maps,
`_max_fd` and persistent capacity are those before the call; and so does every
poll cycle that ends, with any oracle.  Only `_R[1]`, `_W[1]` and `_cap[1]` can
differ. -/
theorem poll_frame (s : Select) (N : Nat) (o : SelectOutcome) (rest : List SelectOutcome)
    (ho : o ≠ SelectOutcome.fail EINTR) :
    (∃ r, _select s (List.replicate N (SelectOutcome.fail EINTR) ++ o :: rest) = some r ∧
        r.state._R0 = s._R0 ∧ r.state._W0 = s._W0 ∧ r.state._M0 = s._M0 ∧
        r.state._M1 = s._M1 ∧ r.state._fd2ev0 = s._fd2ev0 ∧ r.state._fd2ev1 = s._fd2ev1 ∧
        r.state._max_fd = s._max_fd ∧ r.state._cap0 = s._cap0) ∧
      ∀ sys r, _select s sys = some r →
        ∃ a b c, r.state = { s with _R1 := a, _W1 := b, _cap1 := c } := by
  refine ⟨?_, fun sys r hr => select_frame s sys r hr⟩
  have hex : ∃ r, _select s (List.replicate N (SelectOutcome.fail EINTR) ++ o :: rest) = some r := by
    by_cases hm : s._max_fd = -1
    · exact ⟨_, select_of_none s _ hm⟩
    · cases o with
      | fail errno =>
        exact ⟨_, select_retry_fail s N errno rest (fun hc => ho (by rw [hc])) hm⟩
      | ok rd wr ex => exact ⟨_, select_retry_ok s N rd wr ex rest hm⟩
  obtain ⟨r, hr⟩ := hex
  obtain ⟨a, b, c, hs⟩ := select_frame s _ r hr
  refine ⟨r, hr, ?_⟩
  rw [hs]
  exact ⟨rfl, rfl, rfl, rfl, rfl, rfl, rfl, rfl⟩

/-- Witness of C15: READ registered on descriptor 3, the system call succeeds
and overwrites the READ set it was handed with all ones. -/
theorem poll_frame_witness :
    SelectOutcome.ok [255] [] [] ≠ SelectOutcome.fail EINTR ∧
      ∃ r, _select (run (Select.empty true) [Op.insert ⟨1, 3, EventType.READ⟩])
          (List.replicate 0 (SelectOutcome.fail EINTR) ++ SelectOutcome.ok [255] [] [] :: [])
          = some r ∧
        r.state._R0 = (run (Select.empty true) [Op.insert ⟨1, 3, EventType.READ⟩])._R0 :=
  ⟨by decide,
    (poll_frame (run (Select.empty true) [Op.insert ⟨1, 3, EventType.READ⟩]) 0
      (SelectOutcome.ok [255] [] []) [] (by decide)).1.imp (fun _ hr => ⟨hr.1, hr.2.1⟩)⟩

/-- C16: in a reachable state the persistent capacity in bits exceeds
`_max_fd`; both persistent bitmasks and both active masks have `_cap[0]` bytes
and both reference maps `8 * _cap[0]` slots; after `_recap(fd)` the capacity in
bits exceeds `fd`, so the accesses at the descriptor of the event are inside
the storage; the indexes the shrink loop of `remove` reads (from the `_max_fd`
left by `_recap` downwards) are inside both persistent bitmasks; and the
`_max_fd / 8 + 1` bytes of the snapshot step are inside the persistent arrays
and inside the transient ones once `_cap[1]` has been raised to `_cap[0]`. -/
theorem storage_bounds (s : Select) (h : Reachable s) :
    s._max_fd < ((8 * s._cap0 : Nat) : Int) ∧
      (s._R0.length = s._cap0 ∧ s._W0.length = s._cap0 ∧ s._M0.length = s._cap0 ∧
        s._M1.length = s._cap0 ∧ s._fd2ev0.length = 8 * s._cap0 ∧
        s._fd2ev1.length = 8 * s._cap0) ∧
      (∀ fd, fd < 8 * (_recap s fd)._cap0 ∧ in_storage (_recap s fd) fd) ∧
      (∀ (e : Event) (m : Nat), (m : Int) ≤ (_recap s e.descriptor)._max_fd →
        m / 8 < (_remove s e)._R0.length ∧ m / 8 < (_remove s e)._W0.length) ∧
      (0 ≤ s._max_fd →
        (s._max_fd / 8 + 1).toNat ≤ s._cap0 ∧ s._cap0 ≤ (make_snapshot s)._cap1 ∧
        (make_snapshot s)._R1.length = (make_snapshot s)._cap1 ∧
        (make_snapshot s)._W1.length = (make_snapshot s)._cap1) := by
  have hi := h.inv
  have hlt := hi.max_lt
  refine ⟨by omega, ⟨hi.lenR, hi.lenW, hi.lenM0, hi.lenM1, ?_, ?_⟩, ?_, ?_, ?_⟩
  · rw [hi.lenE0]; omega
  · rw [hi.lenE1]; omega
  · intro fd
    have hg := Inv_recap s fd hi
    have hle := le_max_fd_recap s fd
    have hgl := hg.max_lt
    have hfd : fd < (_recap s fd)._cap0 * 8 := by omega
    exact ⟨by omega, in_storage_of_lt _ hg fd hfd⟩
  · intro e m hm
    have hg := Inv_recap s e.descriptor hi
    have hgl := hg.max_lt
    obtain ⟨l1, l2⟩ := remove_lengths s e
    rw [l1, l2, hg.lenR, hg.lenW]
    omega
  · intro h0
    obtain ⟨l1, l2, l3⟩ := make_snapshot_lengths s hi
    exact ⟨by omega, l3, l1, l2⟩

/-- Witness of C16: READ registered on descriptor 3. -/
theorem storage_bounds_witness :
    Reachable (run (Select.empty true) [Op.insert ⟨1, 3, EventType.READ⟩]) ∧
      (run (Select.empty true) [Op.insert ⟨1, 3, EventType.READ⟩])._max_fd <
        ((8 * (run (Select.empty true) [Op.insert ⟨1, 3, EventType.READ⟩])._cap0 : Nat) : Int) :=
  ⟨(Reachable.empty true).run _,
    (storage_bounds (run (Select.empty true) [Op.insert ⟨1, 3, EventType.READ⟩])
      ((Reachable.empty true).run _)).1⟩

/-- C17 (the code departs from the claim): on the empty demultiplexer
(`_max_fd = -1`), `insert`, `freeze` and `thaw` of an event on descriptor 5
whose direction is neither READ nor WRITE each leave `_max_fd = 5`, and a poll
cycle after the insert issues a system call. -/
theorem none_direction_raises_max_fd :
    (Select.empty true)._max_fd = -1 ∧
      (_insert (Select.empty true) ⟨1, 5, EventType.NONE⟩)._max_fd = 5 ∧
      (_freeze (Select.empty true) ⟨1, 5, EventType.NONE⟩)._max_fd = 5 ∧
      (_thaw (Select.empty true) ⟨1, 5, EventType.NONE⟩)._max_fd = 5 ∧
      (_select (Select.empty true) [SelectOutcome.ok [] [] []]).map PollResult.calls = some 0 ∧
      (_select (_insert (Select.empty true) ⟨1, 5, EventType.NONE⟩)
        [SelectOutcome.ok [] [] []]).map PollResult.calls = some 1 := by
  decide

/-- C18: for a descriptor of the `fd_set` range, when the system call of the
probe fails `N` times with `EINTR` and then succeeds, `select_on_write` returns
the bit of the descriptor in the writable set as the call left it, which is the
bit of the descriptor in what the kernel wrote there, and the error output is
cleared; when the kernel left the writable set empty (time-out, or an
exceptional condition only) it returns `false` with the error cleared. -/
theorem probe_success (fd : Nat) (timeout : Int) (N : Nat) (rd wr ex : List Nat)
    (rest : List SelectOutcome) (h : fd < FD_SETSIZE) :
    select_on_write fd timeout
        (List.replicate N (SelectOutcome.fail EINTR) ++ SelectOutcome.ok rd wr ex :: rest) =
      some (FD_ISSET fd (write_back wr (FD_SET fd FD_ZERO)), 0) ∧
      (fd / 8 < wr.length →
        FD_ISSET fd (write_back wr (FD_SET fd FD_ZERO)) = FD_ISSET fd wr) ∧
      select_on_write fd timeout
        (List.replicate N (SelectOutcome.fail EINTR) ++ SelectOutcome.ok rd FD_ZERO ex :: rest) =
      some (false, 0) := by
  have hlen : fd / 8 < (FD_SET fd FD_ZERO).length := by
    simp only [length_FD_SET, FD_ZERO, FD_SETSIZE, List.length_replicate] at h ⊢
    omega
  refine ⟨select_on_write_of_success fd timeout N rd wr ex rest, ?_, ?_⟩
  · intro hwr
    exact FD_ISSET_write_back fd wr _ hwr hlen
  · rw [select_on_write_of_success,
      FD_ISSET_write_back fd FD_ZERO _ (by simpa using hlen) hlen]
    have hz : FD_ISSET fd FD_ZERO = false := by
      rw [FD_ISSET_eq]
      simp [FD_ZERO, List.getD_eq_getElem?_getD, List.getElem?_replicate]
      split <;> simp
    rw [hz]

/-- Witness of C18: descriptor 5, one `EINTR`, then the kernel reports
descriptor 5 writable. -/
theorem probe_success_witness :
    5 < FD_SETSIZE ∧
      select_on_write 5 1
        (List.replicate 1 (SelectOutcome.fail EINTR) ++ SelectOutcome.ok [] [32] [] :: []) =
      some (FD_ISSET 5 (write_back [32] (FD_SET 5 FD_ZERO)), 0) :=
  ⟨by decide, (probe_success 5 1 1 [] [32] [] [] (by decide)).1⟩

/-- C19: in a state in which no handler is set, a poll cycle whose system call
succeeds (after `N` failures with `EINTR`, with any ready sets) returns without
error and invokes no handler; and in any state with `_max_fd = -1`, as in the
newly created demultiplexer, a poll cycle returns at once: no system call is
issued, nothing is dispatched, no error is raised and the state is untouched. -/
theorem poll_without_handler (s : Select) (N : Nat) (rd wr ex : List Nat)
    (rest : List SelectOutcome) (hh : s._handler = false) :
    (∃ r, _select s
          (List.replicate N (SelectOutcome.fail EINTR) ++ SelectOutcome.ok rd wr ex :: rest)
          = some r ∧ r.error = none ∧ r.trace = []) ∧
      (∀ (t : Select) (sys : List SelectOutcome), t._max_fd = -1 →
        _select t sys = some { state := t, trace := [], error := none, calls := 0 }) ∧
      ∀ handler, (Select.empty handler)._max_fd = -1 := by
  refine ⟨?_, fun t sys ht => select_of_none t sys ht, fun _ => rfl⟩
  by_cases hm : s._max_fd = -1
  · exact ⟨_, select_of_none s _ hm, rfl, rfl⟩
  · refine ⟨_, select_retry_ok s N rd wr ex rest hm, rfl, ?_⟩
    dsimp only
    rw [if_neg]
    rw [hh]
    decide

/-- Witness of C19: READ registered on descriptor 3 without a handler, the
system call reports descriptor 3 readable. -/
theorem poll_without_handler_witness :
    (run (Select.empty false) [Op.insert ⟨1, 3, EventType.READ⟩])._handler = false ∧
      ∃ r, _select (run (Select.empty false) [Op.insert ⟨1, 3, EventType.READ⟩])
          (List.replicate 0 (SelectOutcome.fail EINTR) ++ SelectOutcome.ok [8] [] [] :: [])
          = some r ∧ r.error = none ∧ r.trace = [] :=
  ⟨by decide,
    (poll_without_handler (run (Select.empty false) [Op.insert ⟨1, 3, EventType.READ⟩])
      0 [8] [] [] [] (by decide)).1⟩

/-- C20: in a reachable state no persistent READ or WRITE bit is set above
`_max_fd`; hence every registered and active pair has its descriptor below the
handle-count bound `_max_fd + 1` of the system call, inside the
`_max_fd / 8 + 1` bytes of the snapshot, and its bit is set in the working
bitmask the poll cycle submits. -/
theorem registrations_in_poll_range (s : Select) (h : Reachable s) :
    (∀ dir fd, persistent s dir fd = true → (fd : Int) ≤ s._max_fd) ∧
      ∀ dir fd, persistent s dir fd = true → active s dir fd = true →
        (fd : Int) < select_nfds s ∧ fd / 8 < (s._max_fd / 8 + 1).toNat ∧
        working (make_snapshot s) dir fd = true := by
  have hi := h.inv
  refine ⟨fun dir fd hp => persistent_le_max_fd s hi dir fd hp, ?_⟩
  intro dir fd hp ha
  have hle := persistent_le_max_fd s hi dir fd hp
  refine ⟨by unfold select_nfds; omega, by omega, ?_⟩
  rw [working_make_snapshot s hi dir fd hle, hp, ha]
  rfl

/-- Witness of C20: WRITE registered on descriptor 9. -/
theorem registrations_in_poll_range_witness :
    Reachable (run (Select.empty true) [Op.insert ⟨1, 9, EventType.WRITE⟩]) ∧
      working (make_snapshot (run (Select.empty true) [Op.insert ⟨1, 9, EventType.WRITE⟩]))
        EventType.WRITE 9 = true :=
  ⟨(Reachable.empty true).run _,
    ((registrations_in_poll_range (run (Select.empty true) [Op.insert ⟨1, 9, EventType.WRITE⟩])
      ((Reachable.empty true).run _)).2 EventType.WRITE 9 (by decide) (by decide)).2.2⟩

end dtc
